import Mathlib

/-!
Shallow embedding of the inverted-index demo (term index, sparse sort-key
index, CDC consumer, query planner) and proofs about the claims C1 to C10.

Modelling conventions:
* Row ids (u32) and sort keys / forward values (u64) are `Nat`; no arithmetic
  in the source can overflow on the reachable paths (the only cursor
  arithmetic, plus/minus one in the scan loop, is guarded by the sentinel
  checks exactly as in the source, see `scanLoop`).
* A roaring bitmap is a set of u32 ids whose iterator yields ids in ascending
  order; it is modelled as an ascending duplicate-free `List Nat` (the
  well-formedness is carried as hypotheses where a proof needs it).
* The Redis hash of term postings (`RedisBmStore`) is an association list from
  (index key, value key) to bitmap; a missing entry decodes to the empty
  bitmap (`parseBitmap` of an empty string).
* The sorted-set-plus-hash pair of `RedisSortKeyBitmapStore` is a single
  association list from u64 sort key to bitmap kept in ascending key order
  (zero-padded hex is monotone in the integer, so lex order equals numeric
  order); `MSet` deletes the keys of empty bitmaps and upserts the rest in
  order, the later write winning on a duplicate key exactly as a Redis HMSET
  with a repeated field does.
* The forward store (`RedisFvStore`) is an association list id to u64; a
  missing id yields 0 on MGet, as in the source.
* `sort.Slice` of Go is an unstable sort; the model uses a stable insertion
  sort, so ties of the score-only comparator of the writer keep the bitmap
  iteration order. Statements whose truth would depend on the tie order are
  avoided or stated tie-independently.
-/

namespace InvIndex

/-- Largest u64 value, the sentinel cursor of the scan loop. -/
def U64MAX : Nat := 18446744073709551615

/-- Row id paired with its forward value, as index.SortId (reader) and
index.SortedId (writer). -/
structure SortId where
  id : Nat
  score : Nat
deriving DecidableEq

/-- Bitmap of row ids: ascending duplicate-free list of u32 values. -/
abbrev Bitmap := List Nat

/-- Bitmap.Add: ordered insertion keeping the set semantics. -/
def bmAdd (id : Nat) : Bitmap → Bitmap
  | [] => [id]
  | x :: xs =>
    if id < x then id :: x :: xs
    else if id = x then x :: xs
    else x :: bmAdd id xs

/-- Bitmap.Remove. -/
def bmRemove (id : Nat) (bm : Bitmap) : Bitmap := bm.filter (fun x => x ≠ id)

/-- Bitmap.And, in-place intersection with the left receiver. -/
def bmAnd (a b : Bitmap) : Bitmap := a.filter (fun x => x ∈ b)

/-- Bitmap.AndNot, in-place difference on the left receiver. -/
def bmAndNot (a b : Bitmap) : Bitmap := a.filter (fun x => x ∉ b)

/-- RedisBmStore: hash keyed by (index key, value key); values are bitmaps. -/
abbrev BmStore := List ((String × String) × Bitmap)

/-- RedisBmStore.Get: HGET plus parseBitmap, a missing field is empty. -/
def bmStoreGet (s : BmStore) (ik vk : String) : Bitmap :=
  match s.find? (fun e => e.1 = (ik, vk)) with
  | some e => e.2
  | none => []

/-- HSET on the hash model: replace the entry in place or append it. -/
def alSet (ik vk : String) (bm : Bitmap) : BmStore → BmStore
  | [] => [((ik, vk), bm)]
  | e :: rest =>
    if e.1 = (ik, vk) then ((ik, vk), bm) :: rest else e :: alSet ik vk bm rest

/-- RedisBmStore.Set: deletes the field when the bitmap is empty, else HSET. -/
def bmStoreSet (s : BmStore) (ik vk : String) (bm : Bitmap) : BmStore :=
  if bm.length = 0 then s.filter (fun e => ¬ e.1 = (ik, vk))
  else alSet ik vk bm s

/-- RedisSortKeyBitmapStore: sort key to bitmap, ascending by key. -/
abbrev SkbmStore := List (Nat × Bitmap)

/-- Membership of a key in the lex range of a Scan call: forward ranges are
[start, stop], reverse ranges are [stop, start]. -/
def inScanRange (reverse : Bool) (start stop k : Nat) : Bool :=
  if reverse then decide (stop ≤ k) && decide (k ≤ start)
  else decide (start ≤ k) && decide (k ≤ stop)

/-- RedisSortKeyBitmapStore.Scan: page of at most limit buckets in ascending
(forward) or descending (reverse) key order, decoded to fresh bitmaps. -/
def skbmScan (s : SkbmStore) (start stop : Nat) (reverse : Bool) (limit : Nat) :
    List (Nat × Bitmap) :=
  if reverse then ((s.filter (fun kv => inScanRange true start stop kv.1)).reverse).take limit
  else (s.filter (fun kv => inScanRange false start stop kv.1)).take limit

/-- ZADD plus HSET of one bucket: ordered insertion replacing an equal key. -/
def skbmUpsert : SkbmStore → (Nat × Bitmap) → SkbmStore
  | [], it => [it]
  | kv :: rest, it =>
    if it.1 < kv.1 then it :: kv :: rest
    else if it.1 = kv.1 then it :: rest
    else kv :: skbmUpsert rest it

/-- RedisSortKeyBitmapStore.MSet: empty bitmaps are removed from the sorted
set and the hash; the others are written in order, a later duplicate key
overwriting an earlier one as HMSET with a repeated field does. -/
def skbmMSet (s : SkbmStore) (items : List (Nat × Bitmap)) : SkbmStore :=
  let dels := items.filter (fun it => it.2.length = 0)
  let sets := items.filter (fun it => ¬ it.2.length = 0)
  let s1 := s.filter (fun kv => ¬ dels.any (fun d => d.1 = kv.1))
  sets.foldl skbmUpsert s1

/-- RedisFvStore: id to exact forward value. -/
abbrev FvStore := List (Nat × Nat)

/-- RedisFvStore.Set: replace in place or append. -/
def fvSet : FvStore → Nat → Nat → FvStore
  | [], id, v => [(id, v)]
  | e :: rest, id, v => if e.1 = id then (id, v) :: rest else e :: fvSet rest id v

/-- RedisFvStore.Remove. -/
def fvRemove (s : FvStore) (id : Nat) : FvStore := s.filter (fun e => ¬ e.1 = id)

/-- One lookup of RedisFvStore.MGet: a missing id yields 0. -/
def fvGetD (s : FvStore) (id : Nat) : Nat :=
  match s.find? (fun e => e.1 = id) with
  | some e => e.2
  | none => 0

/-- RedisFvStore.MGet. -/
def fvMGet (s : FvStore) (ids : List Nat) : List Nat := ids.map (fvGetD s)

/-- TermIndex.GetIndexKey for the orders table. -/
def termIndexKey (field : String) : String := "term:orders:" ++ field

/-- SparseIndex.MakeIndexKey for (orders, create_time). -/
def sparseIndexKey : String := "sparse:orders:create_time"

/-- TermIndex.MakeValueKey on an int64: canonical decimal rendering. -/
def makeValueKeyInt (v : Int) : String := toString v

/-- TermIndex.MakeValueKey on a nullable int64: a nil pointer is rendered as
the literal token null, any value as its decimal rendering. -/
def makeValueKeyOptInt : Option Int → String
  | none => "null"
  | some v => toString v

/-- Comparator of the writer-side sort in QuerySortedIds (src/unnamed/part_000
line 33): it compares scores only, with no secondary component. -/
def sortedIdLess (a b : SortId) : Bool := decide (a.score < b.score)

/-- QuerySortedIds of the writer: ids in bitmap iteration order, hydrated with
forward values, sorted by score only. Ties keep the iteration order in the
model (Go leaves the tie order to the unstable sort.Slice). -/
def querySortedIds (fvs : FvStore) (bm : Bitmap) : List SortId :=
  (bm.map (fun id => SortId.mk id (fvGetD fvs id))).insertionSort
    (fun a b => a.score ≤ b.score)

/-- Total order of the reader-side sort in QuerySortIds: ascending score with
the id as the tie break. -/
def readerLE (a b : SortId) : Prop :=
  a.score < b.score ∨ (a.score = b.score ∧ a.id ≤ b.id)

instance : DecidableRel readerLE := fun a b => by
  unfold readerLE; exact inferInstance

instance : IsTotal SortId readerLE where
  total a b := by
    unfold readerLE
    rcases Nat.lt_trichotomy a.score b.score with h | h | h
    · exact Or.inl (Or.inl h)
    · rcases Nat.le_total a.id b.id with h2 | h2
      · exact Or.inl (Or.inr ⟨h, h2⟩)
      · exact Or.inr (Or.inr ⟨h.symm, h2⟩)
    · exact Or.inr (Or.inl h)

instance : IsTrans SortId readerLE where
  trans a b c hab hbc := by
    unfold readerLE at *
    rcases hab with h1 | ⟨h1, h1i⟩
    · rcases hbc with h2 | ⟨h2, _⟩
      · exact Or.inl (h1.trans h2)
      · exact Or.inl (h2 ▸ h1)
    · rcases hbc with h2 | ⟨h2, h2i⟩
      · exact Or.inl (h1 ▸ h2)
      · exact Or.inr ⟨h1.trans h2, h1i.trans h2i⟩

/-- QuerySortIds of the reader: ids in bitmap iteration order, hydrated with
forward values, sorted ascending by (score, id). -/
def querySortIds (fvs : FvStore) (bm : Bitmap) : List SortId :=
  (bm.map (fun id => SortId.mk id (fvGetD fvs id))).insertionSort readerLE

/-- getFloorSortedBm: reverse lex scan from fv down to 0 with limit 1. -/
def getFloorSortedBm (s : SkbmStore) (fv : Nat) : Option (Nat × Bitmap) :=
  (skbmScan s fv 0 true 1).head?

/-- Builds a bitmap from the ids of a list of SortId, as the loop of
Bitmap.Add calls in the split path does. -/
def bmOfSortIds (l : List SortId) : Bitmap :=
  l.foldl (fun bm si => bmAdd si.id bm) []

/-- SparseU64IndexWriter.Add with the SplitThreshold of the writer. -/
def sparseAdd (threshold : Nat) (sk : SkbmStore) (fvs : FvStore) (fv id : Nat) :
    SkbmStore × FvStore :=
  let updates : List (Nat × Bitmap) :=
    match getFloorSortedBm sk fv with
    | none => [(fv, [])]
    | some floorBm =>
      if floorBm.2.length < threshold then [floorBm]
      else
        let sortedIds := querySortedIds fvs floorBm.2
        let mid := sortedIds.length / 2
        let bm1 := bmOfSortIds (sortedIds.take mid)
        let bm2 := bmOfSortIds (sortedIds.drop mid)
        let k1 := (sortedIds.headD (SortId.mk 0 0)).score
        let k2 := (sortedIds.getD mid (SortId.mk 0 0)).score
        if k2 ≤ fv then [(k2, bm2), (k1, bm1)] else [(k1, bm1), (k2, bm2)]
  let updates1 : List (Nat × Bitmap) :=
    match updates with
    | [] => []
    | u0 :: rest => (u0.1, bmAdd id u0.2) :: rest
  (skbmMSet sk updates1, fvSet fvs id fv)

/-- SparseU64IndexWriter.Remove: a missing floor bucket only logs a warning
and skips the bitmap write; the forward entry is removed either way. -/
def sparseRemove (sk : SkbmStore) (fvs : FvStore) (fv id : Nat) :
    SkbmStore × FvStore :=
  let sk1 :=
    match getFloorSortedBm sk fv with
    | some floorBm => skbmMSet sk [(floorBm.1, bmRemove id floorBm.2)]
    | none => sk
  (sk1, fvRemove fvs id)

/-- SparseU64IndexWriter.Move. -/
def sparseMove (threshold : Nat) (sk : SkbmStore) (fvs : FvStore)
    (before afterv id : Nat) : SkbmStore × FvStore :=
  if before = afterv then (sk, fvs)
  else
    let p := sparseRemove sk fvs before id
    sparseAdd threshold p.1 p.2 afterv id

/-- TermIndexWriter.Add. -/
def termAdd (s : BmStore) (ik vk : String) (id : Nat) : BmStore :=
  bmStoreSet s ik vk (bmAdd id (bmStoreGet s ik vk))

/-- TermIndexWriter.Remove. -/
def termRemove (s : BmStore) (ik vk : String) (id : Nat) : BmStore :=
  bmStoreSet s ik vk (bmRemove id (bmStoreGet s ik vk))

/-- TermIndexWriter.Move on int64 values: no-op when equal. -/
def termMoveInt (s : BmStore) (ik : String) (before afterv : Int) (id : Nat) :
    BmStore :=
  if before = afterv then s
  else termAdd (termRemove s ik (makeValueKeyInt before) id) ik
    (makeValueKeyInt afterv) id

/-- TermIndexWriter.Move on nullable int64 values. The Go receiver compares
the two pointers, which are equal only when both are nil, since the before
and after rows are decoded into separate structs. -/
def termMoveOptInt (s : BmStore) (ik : String) (before afterv : Option Int)
    (id : Nat) : BmStore :=
  if before = none ∧ afterv = none then s
  else termAdd (termRemove s ik (makeValueKeyOptInt before) id) ik
    (makeValueKeyOptInt afterv) id

/-! Consumer side: the CDC applier of the sync package. -/

/-- Row image of a CDC message. -/
structure Order where
  id : Nat
  orderStatus : Int
  productID : Int
  providerID : Option Int
  createTime : Nat
deriving DecidableEq

/-- Full state of the three Redis stores. -/
structure DB where
  bm : BmStore
  sk : SkbmStore
  fvs : FvStore
deriving DecidableEq

/-- SplitThreshold of the CreateTimeIndexWriter built in Consumer.Start. -/
def consumerThreshold : Nat := 1000

/-- saramaConsumer.onInsert: universe posting, the three term postings, then
the sparse create_time index with the forward store. -/
def onInsert (db : DB) (o : Order) : DB :=
  let bm1 := termAdd db.bm (termIndexKey "__all") (makeValueKeyInt 0) o.id
  let bm2 := termAdd bm1 (termIndexKey "order_status") (makeValueKeyInt o.orderStatus) o.id
  let bm3 := termAdd bm2 (termIndexKey "product_id") (makeValueKeyInt o.productID) o.id
  let bm4 := termAdd bm3 (termIndexKey "provider_id") (makeValueKeyOptInt o.providerID) o.id
  let p := sparseAdd consumerThreshold db.sk db.fvs o.createTime o.id
  ⟨bm4, p.1, p.2⟩

/-- saramaConsumer.onUpdate: moves on the three term postings and the sparse
index; the universe posting is untouched. -/
def onUpdate (db : DB) (before afterO : Order) : DB :=
  let bm1 := termMoveInt db.bm (termIndexKey "order_status") before.orderStatus afterO.orderStatus afterO.id
  let bm2 := termMoveInt bm1 (termIndexKey "product_id") before.productID afterO.productID afterO.id
  let bm3 := termMoveOptInt bm2 (termIndexKey "provider_id") before.providerID afterO.providerID afterO.id
  let p := sparseMove consumerThreshold db.sk db.fvs before.createTime afterO.createTime afterO.id
  ⟨bm3, p.1, p.2⟩

/-- saramaConsumer.onDelete. -/
def onDelete (db : DB) (o : Order) : DB :=
  let bm1 := termRemove db.bm (termIndexKey "__all") (makeValueKeyInt 0) o.id
  let bm2 := termRemove bm1 (termIndexKey "order_status") (makeValueKeyInt o.orderStatus) o.id
  let bm3 := termRemove bm2 (termIndexKey "product_id") (makeValueKeyInt o.productID) o.id
  let bm4 := termRemove bm3 (termIndexKey "provider_id") (makeValueKeyOptInt o.providerID) o.id
  let p := sparseRemove db.sk db.fvs o.createTime o.id
  ⟨bm4, p.1, p.2⟩

/-- CDC event: op r and c carry an after image, u carries both, d a before. -/
inductive Event where
  | ins (o : Order)
  | upd (before afterO : Order)
  | del (o : Order)

/-- Dispatch of saramaConsumer.ConsumeClaim on the op field. -/
def applyEvent (db : DB) : Event → DB
  | .ins o => onInsert db o
  | .upd b a => onUpdate db b a
  | .del o => onDelete db o

def emptyDB : DB := ⟨[], [], []⟩

/-- State after fully applying a finite event sequence from empty stores. -/
def applyEvents (es : List Event) : DB := es.foldl applyEvent emptyDB

/-! Query side: the query package. -/

/-- NullableValueFilterMode. -/
inductive FilterMode where
  | eq
  | null
  | notNull
deriving DecidableEq

/-- NullableValueFilter over int64. -/
structure NullableValueFilter where
  mode : FilterMode
  value : Int
deriving DecidableEq

/-- Request of OrdersSearchService.List; Limit is a nullable Go int. -/
structure Request where
  orderStatusEq : Option Int
  productIDEq : Option Int
  providerIDFilter : Option NullableValueFilter
  limit : Option Int
deriving DecidableEq

/-- Response of OrdersSearchService.List. -/
structure Response where
  ids : List Nat
  total : Nat
deriving DecidableEq

/-- Accumulator phase of List: the universe bitmap intersected or subtracted
with the term posting of each present filter, in source order. -/
def filterAcc (bs : BmStore) (r : Request) : Bitmap :=
  let acc0 := bmStoreGet bs (termIndexKey "__all") (makeValueKeyInt 0)
  let acc1 :=
    match r.orderStatusEq with
    | some v => bmAnd acc0 (bmStoreGet bs (termIndexKey "order_status") (makeValueKeyInt v))
    | none => acc0
  let acc2 :=
    match r.productIDEq with
    | some v => bmAnd acc1 (bmStoreGet bs (termIndexKey "product_id") (makeValueKeyInt v))
    | none => acc1
  match r.providerIDFilter with
  | none => acc2
  | some f =>
    match f.mode with
    | .eq => bmAnd acc2 (bmStoreGet bs (termIndexKey "provider_id") (makeValueKeyOptInt (some f.value)))
    | .null => bmAnd acc2 (bmStoreGet bs (termIndexKey "provider_id") (makeValueKeyOptInt none))
    | .notNull => bmAndNot acc2 (bmStoreGet bs (termIndexKey "provider_id") (makeValueKeyOptInt none))

/-- Callback body of List: append each id, stop once the limit is reached. -/
def appendIds (limit : Option Int) : List Nat → List SortId → List Nat × Bool
  | ids, [] => (ids, true)
  | ids, s :: rest =>
    let ids1 := ids ++ [s.id]
    match limit with
    | some l => if (ids1.length : Int) ≥ l then (ids1, false) else appendIds limit ids1 rest
    | none => appendIds limit ids1 rest

/-- Inner loop of SparseU64IndexReader.Scan over the buckets of one page:
intersect with the base bitmap, skip empty intersections, sort, reverse when
scanning backwards, and hand the batch to the callback, stopping the whole
scan when the callback returns false. -/
def procBuckets {σ : Type} (fvs : FvStore) (base : Bitmap) (reverse : Bool)
    (proc : σ → List SortId → σ × Bool) : σ → List (Nat × Bitmap) → σ × Bool
  | acc, [] => (acc, true)
  | acc, b :: rest =>
    if (bmAnd b.2 base).length = 0 then procBuckets fvs base reverse proc acc rest
    else
      match proc acc (if reverse then (querySortIds fvs (bmAnd b.2 base)).reverse
                      else querySortIds fvs (bmAnd b.2 base)) with
      | (acc1, true) => procBuckets fvs base reverse proc acc1 rest
      | (acc1, false) => (acc1, false)

/-- Cursor update of the scan loop: move one key past the last bucket of the
page unless it already sits on the end sentinel. -/
def scanNext (reverse : Bool) (endv lastKey : Nat) : Nat :=
  if lastKey = endv then lastKey
  else if reverse then lastKey - 1 else lastKey + 1

theorem mem_filter_of_mem_skbmScan {sk : SkbmStore} {start stop : Nat}
    {rev : Bool} {lim : Nat} {e : Nat × Bitmap}
    (h : e ∈ skbmScan sk start stop rev lim) :
    e ∈ sk.filter (fun kv => inScanRange rev start stop kv.1) := by
  unfold skbmScan at h
  rcases hr : rev with _ | _
  · rw [hr] at h
    simp only [Bool.false_eq_true, if_false] at h
    exact List.mem_of_mem_take h
  · rw [hr] at h
    simp only [if_true] at h
    exact List.mem_reverse.mp (List.mem_of_mem_take h)

theorem inScanRange_false_eq {start stop k : Nat} :
    inScanRange false start stop k = true ↔ start ≤ k ∧ k ≤ stop := by
  unfold inScanRange
  simp

theorem inScanRange_true_eq {start stop k : Nat} :
    inScanRange true start stop k = true ↔ stop ≤ k ∧ k ≤ start := by
  unfold inScanRange
  simp

/-- Loop of SparseU64IndexReader.Scan: page at most 100 buckets from the
cursor, process them, then move the cursor one key past the last bucket of
the page, stopping at the end sentinel, on an empty page, or when the
callback declines to continue. The source loop terminates because every
non-empty page moves the cursor past at least one stored key; the model makes
the iteration bound an explicit fuel argument, instantiated with one more
than the number of stored buckets, and the lemmas scanLoop_fwd and
scanLoop_rev prove that this fuel never runs out. -/
def scanLoop {σ : Type} (sk : SkbmStore) (fvs : FvStore) (base : Bitmap)
    (reverse : Bool) (proc : σ → List SortId → σ × Bool) (endv : Nat) :
    Nat → Nat → σ → σ
  | 0, _, acc => acc
  | fuel + 1, start, acc =>
    if start = endv then acc
    else
      if h2 : skbmScan sk start endv reverse 100 = [] then acc
      else
        match procBuckets fvs base reverse proc acc (skbmScan sk start endv reverse 100) with
        | (acc1, true) =>
          scanLoop sk fvs base reverse proc endv fuel
            (scanNext reverse endv (((skbmScan sk start endv reverse 100).getLast h2).1)) acc1
        | (acc1, false) => acc1

/-- SparseU64IndexReader.Scan: cursor runs from 0 to the u64 maximum, or the
other way round when reverse is set. -/
def sparseScan {σ : Type} (sk : SkbmStore) (fvs : FvStore) (base : Bitmap)
    (reverse : Bool) (proc : σ → List SortId → σ × Bool) (s0 : σ) : σ :=
  if reverse then scanLoop sk fvs base true proc 0 (sk.length + 1) U64MAX s0
  else scanLoop sk fvs base false proc U64MAX (sk.length + 1) 0 s0

/-- OrdersSearchService.List. -/
def ordersList (db : DB) (r : Request) : Response :=
  let accBm := filterAcc db.bm r
  let total := accBm.length
  if r.limit = some 0 ∨ total = 0 then ⟨[], total⟩
  else
    ⟨sparseScan db.sk db.fvs accBm true (fun acc batch => appendIds r.limit acc batch) [], total⟩

/-! Specification-side descriptions used by the claims. -/

/-- Batch a single bucket contributes to a scan, if any: the intersection
with the base bitmap when non-empty, sorted by (forward value, id) and
reversed for a reverse scan. -/
def bucketBatch (fvs : FvStore) (base : Bitmap) (reverse : Bool)
    (b : Nat × Bitmap) : Option (List SortId) :=
  if (bmAnd b.2 base).length = 0 then none
  else some (if reverse then (querySortIds fvs (bmAnd b.2 base)).reverse
             else querySortIds fvs (bmAnd b.2 base))

/-- Batches a full scan should deliver according to the claim: every bucket
in ascending, or for reverse scans descending, sort-key order, keeping the
non-empty intersections. -/
def deliveredBatches (sk : SkbmStore) (fvs : FvStore) (base : Bitmap)
    (reverse : Bool) : List (List SortId) :=
  (if reverse then sk.reverse else sk).filterMap (bucketBatch fvs base reverse)

/-- Left fold that also reports whether every callback asked to continue. -/
def foldStopFlag {σ β : Type} (proc : σ → β → σ × Bool) :
    σ → List β → σ × Bool
  | acc, [] => (acc, true)
  | acc, x :: xs =>
    match proc acc x with
    | (a, true) => foldStopFlag proc a xs
    | (a, false) => (a, false)

/-- Left fold that stops early once the callback returns false. -/
def foldStop {σ β : Type} (proc : σ → β → σ × Bool) : σ → List β → σ
  | acc, [] => acc
  | acc, x :: xs =>
    match proc acc x with
    | (a, true) => foldStop proc a xs
    | (a, false) => a

/-- Split step as the claim words it: sort the bucket by exact forward value,
cut at the median index, build the two buckets keyed by the first forward
value of each half, and add the new id to the second bucket unless the new
value is below the key of the upper half. -/
def splitSpec (sortedIds : List SortId) (fv id : Nat) : List (Nat × Bitmap) :=
  let mid := sortedIds.length / 2
  let lower := sortedIds.take mid
  let upper := sortedIds.drop mid
  let kL := (lower.headD (SortId.mk 0 0)).score
  let kU := (upper.headD (SortId.mk 0 0)).score
  if kU ≤ fv then [(kU, bmAdd id (bmOfSortIds upper)), (kL, bmOfSortIds lower)]
  else [(kL, bmAdd id (bmOfSortIds lower)), (kU, bmOfSortIds upper)]

/-- Number of buckets whose stored bitmap contains the id. -/
def bucketCount (sk : SkbmStore) (id : Nat) : Nat :=
  sk.countP (fun kv => decide (id ∈ kv.2))

/-- Writer state after Add(100,1), Add(100,2), Add(100,3) on an empty sparse
index with SplitThreshold 2: the third Add splits the bucket at equal forward
values, writes both halves under the same sort key 100, and the second hash
write overwrites the first. -/
def c2State : SkbmStore × FvStore :=
  let s1 := sparseAdd 2 [] [] 100 1
  let s2 := sparseAdd 2 s1.1 s1.2 100 2
  sparseAdd 2 s2.1 s2.2 100 3

/-- Ids 1 to k, ascending. -/
def idsUpTo (k : Nat) : List Nat := (List.range k).map (fun i => i + 1)

/-- Row image of the i-th insert of the C1 failing sequence: every row has
order_status 1, product_id 1, a null provider and the same create_time. -/
def c1Order (id : Nat) : Order := ⟨id, 1, 1, none, 100⟩

/-- The C1 failing input: 1001 create events with identical create_time,
applied by the consumer whose sparse writer has SplitThreshold 1000. -/
def c1Events : List Event := (List.range 1001).map (fun i => Event.ins (c1Order (i + 1)))

/-- Term postings after the first k inserts of the C1 sequence. -/
def c1BmState (k : Nat) : BmStore :=
  [((termIndexKey "__all", "0"), idsUpTo k),
   ((termIndexKey "order_status", "1"), idsUpTo k),
   ((termIndexKey "product_id", "1"), idsUpTo k),
   ((termIndexKey "provider_id", "null"), idsUpTo k)]

/-- Forward store after the first k inserts of the C1 sequence. -/
def c1FvState (k : Nat) : FvStore := (idsUpTo k).map (fun id => (id, 100))

/-- Store state after fully applying the C1 event sequence. -/
def c1DB : DB := applyEvents c1Events

/-- Response of List with no filters and no limit on that state. -/
def c1Resp : Response := ordersList c1DB ⟨none, none, none, none⟩

/-- Store of 101 buckets with keys 0 to 100, bucket k holding exactly id k. -/
def c4Store : SkbmStore := (List.range 101).map (fun i => (i, [i]))

/-- Forward store mapping id k to forward value k, for ids 0 to 100. -/
def c4Fvs : FvStore := (List.range 101).map (fun i => (i, i))

/-- Base bitmap holding all ids 0 to 100. -/
def c4Base : Bitmap := List.range 101

/-- Callback collecting every delivered batch and always continuing. -/
def collectBatches : List (List SortId) → List SortId → List (List SortId) × Bool :=
  fun acc batch => (acc ++ [batch], true)

/-- Store in which id 2 is live in the universe posting and the forward map
but missing from every sparse bucket. -/
def c10DB : DB :=
  ⟨[((termIndexKey "__all", "0"), [1, 2])], [(100, [1])], [(1, 100), (2, 100)]⟩

/-- Request with no filters and no limit. -/
def c10Req : Request := ⟨none, none, none, none⟩

/-! State-threaded rendering of the query path for the frame claim: every
store primitive the Go List call issues is a Redis read and hands the store
back unchanged; the whole call is threaded through them. -/

/-- HGET plus parseBitmap as a state transformer. -/
def bmStoreGetSt (db : DB) (ik vk : String) : Bitmap × DB :=
  (bmStoreGet db.bm ik vk, db)

/-- ZRANGE plus HMGET plus decode of one page as a state transformer. -/
def skbmScanSt (db : DB) (start stop : Nat) (reverse : Bool) (limit : Nat) :
    List (Nat × Bitmap) × DB :=
  (skbmScan db.sk start stop reverse limit, db)

/-- QuerySortIds, whose only store access is the HMGET of MGet. -/
def querySortIdsSt (db : DB) (bm : Bitmap) : List SortId × DB :=
  (querySortIds db.fvs bm, db)

/-- Bucket loop of Scan with the store threaded through every primitive. -/
def procBucketsSt {σ : Type} (db : DB) (base : Bitmap) (reverse : Bool)
    (proc : σ → List SortId → σ × Bool) : σ → List (Nat × Bitmap) → (σ × Bool) × DB
  | acc, [] => ((acc, true), db)
  | acc, b :: rest =>
    let inter := bmAnd b.2 base
    if inter.length = 0 then procBucketsSt db base reverse proc acc rest
    else
      match querySortIdsSt db inter with
      | (ids0, db1) =>
        match proc acc (if reverse then ids0.reverse else ids0) with
        | (acc1, true) => procBucketsSt db1 base reverse proc acc1 rest
        | (acc1, false) => ((acc1, false), db1)

theorem procBucketsSt_snd {σ : Type} (db : DB) (base : Bitmap) (reverse : Bool)
    (proc : σ → List SortId → σ × Bool) (acc : σ) (bl : List (Nat × Bitmap)) :
    (procBucketsSt db base reverse proc acc bl).2 = db := by
  induction bl generalizing acc with
  | nil => rfl
  | cons b rest ih =>
    rw [procBucketsSt]
    by_cases hi : (bmAnd b.2 base).length = 0
    · rw [if_pos hi]
      exact ih acc
    · rw [if_neg hi]
      simp only [querySortIdsSt]
      split <;> first | exact ih _ | rfl

/-- Scan loop with the store threaded through every primitive, with the same
explicit fuel as scanLoop. -/
def scanLoopSt {σ : Type} (db : DB) (base : Bitmap) (reverse : Bool)
    (proc : σ → List SortId → σ × Bool) (endv : Nat) :
    Nat → Nat → σ → σ × DB
  | 0, _, acc => (acc, db)
  | fuel + 1, start, acc =>
    if start = endv then (acc, db)
    else
      match skbmScanSt db start endv reverse 100 with
      | (page, db1) =>
        if h2 : page = [] then (acc, db1)
        else
          match procBucketsSt db1 base reverse proc acc page with
          | ((acc1, true), db2) =>
            scanLoopSt db2 base reverse proc endv fuel
              (scanNext reverse endv ((page.getLast h2).1)) acc1
          | ((acc1, false), db2) => (acc1, db2)

/-- Scan with the store threaded. -/
def sparseScanSt {σ : Type} (db : DB) (base : Bitmap) (reverse : Bool)
    (proc : σ → List SortId → σ × Bool) (s0 : σ) : σ × DB :=
  if reverse then scanLoopSt db base true proc 0 (db.sk.length + 1) U64MAX s0
  else scanLoopSt db base false proc U64MAX (db.sk.length + 1) 0 s0

/-- List with the store threaded through every primitive it issues. -/
def ordersListSt (db : DB) (r : Request) : Response × DB :=
  let g0 := bmStoreGetSt db (termIndexKey "__all") (makeValueKeyInt 0)
  let a1 : Bitmap × DB :=
    match r.orderStatusEq with
    | some v =>
      let g := bmStoreGetSt g0.2 (termIndexKey "order_status") (makeValueKeyInt v)
      (bmAnd g0.1 g.1, g.2)
    | none => g0
  let a2 : Bitmap × DB :=
    match r.productIDEq with
    | some v =>
      let g := bmStoreGetSt a1.2 (termIndexKey "product_id") (makeValueKeyInt v)
      (bmAnd a1.1 g.1, g.2)
    | none => a1
  let a3 : Bitmap × DB :=
    match r.providerIDFilter with
    | none => a2
    | some f =>
      match f.mode with
      | .eq =>
        let g := bmStoreGetSt a2.2 (termIndexKey "provider_id") (makeValueKeyOptInt (some f.value))
        (bmAnd a2.1 g.1, g.2)
      | .null =>
        let g := bmStoreGetSt a2.2 (termIndexKey "provider_id") (makeValueKeyOptInt none)
        (bmAnd a2.1 g.1, g.2)
      | .notNull =>
        let g := bmStoreGetSt a2.2 (termIndexKey "provider_id") (makeValueKeyOptInt none)
        (bmAndNot a2.1 g.1, g.2)
  let total := a3.1.length
  if r.limit = some 0 ∨ total = 0 then (⟨[], total⟩, a3.2)
  else
    let s := sparseScanSt a3.2 a3.1 true (fun a batch => appendIds r.limit a batch) []
    (⟨s.1, total⟩, s.2)

/-! Helper lemmas. -/

theorem headD_take {α : Type} {l : List α} {m : Nat} (hm : m ≠ 0) (d : α) :
    (l.take m).headD d = l.headD d := by
  cases l with
  | nil => simp
  | cons x xs =>
    cases m with
    | zero => exact absurd rfl hm
    | succ k => simp [List.take_succ_cons]

theorem headD_drop {α : Type} (l : List α) (m : Nat) (d : α) :
    (l.drop m).headD d = l.getD m d := by
  induction l generalizing m with
  | nil => simp [List.getD]
  | cons x xs ih =>
    cases m with
    | zero => simp [List.getD]
    | succ k =>
      rw [List.drop_succ_cons, ih k]
      simp [List.getD]

theorem mem_alSet {ik vk : String} {bm : Bitmap} {s : BmStore} {e : (String × String) × Bitmap}
    (h : e ∈ alSet ik vk bm s) : e = ((ik, vk), bm) ∨ e ∈ s := by
  induction s with
  | nil => simpa [alSet] using h
  | cons x xs ih =>
    unfold alSet at h
    by_cases hx : x.1 = (ik, vk)
    · rw [if_pos hx] at h
      rcases List.mem_cons.mp h with h1 | h1
      · exact Or.inl h1
      · exact Or.inr (List.mem_cons_of_mem x h1)
    · rw [if_neg hx] at h
      rcases List.mem_cons.mp h with h1 | h1
      · exact Or.inr (h1 ▸ List.mem_cons_self x xs)
      · rcases ih h1 with h2 | h2
        · exact Or.inl h2
        · exact Or.inr (List.mem_cons_of_mem x h2)

theorem mem_skbmUpsert {s : SkbmStore} {it e : Nat × Bitmap}
    (h : e ∈ skbmUpsert s it) : e = it ∨ e ∈ s := by
  induction s with
  | nil => simpa [skbmUpsert] using h
  | cons kv rest ih =>
    unfold skbmUpsert at h
    by_cases h1 : it.1 < kv.1
    · rw [if_pos h1] at h
      rcases List.mem_cons.mp h with h2 | h2
      · exact Or.inl h2
      · exact Or.inr h2
    · rw [if_neg h1] at h
      by_cases h2 : it.1 = kv.1
      · rw [if_pos h2] at h
        rcases List.mem_cons.mp h with h3 | h3
        · exact Or.inl h3
        · exact Or.inr (List.mem_cons_of_mem kv h3)
      · rw [if_neg h2] at h
        rcases List.mem_cons.mp h with h3 | h3
        · exact Or.inr (h3 ▸ List.mem_cons_self kv rest)
        · rcases ih h3 with h4 | h4
          · exact Or.inl h4
          · exact Or.inr (List.mem_cons_of_mem kv h4)

theorem foldl_skbmUpsert_pres {sets : List (Nat × Bitmap)} :
    ∀ {s : SkbmStore}, (∀ kv ∈ s, kv.2 ≠ []) → (∀ it ∈ sets, it.2 ≠ []) →
      ∀ kv ∈ sets.foldl skbmUpsert s, kv.2 ≠ [] := by
  induction sets with
  | nil => intro s hs _ kv hkv; exact hs kv hkv
  | cons it rest ih =>
    intro s hs hsets kv hkv
    rw [List.foldl_cons] at hkv
    refine ih (fun kv2 hkv2 => ?_) (fun it2 hit2 => hsets it2 (List.mem_cons_of_mem it hit2)) kv hkv
    rcases mem_skbmUpsert hkv2 with h | h
    · exact h ▸ hsets it (List.mem_cons_self it rest)
    · exact hs kv2 h

theorem bmStoreSet_pres {s : BmStore} (hs : ∀ e ∈ s, e.2 ≠ [])
    (ik vk : String) (bm : Bitmap) : ∀ e ∈ bmStoreSet s ik vk bm, e.2 ≠ [] := by
  intro e he
  unfold bmStoreSet at he
  by_cases hb : bm.length = 0
  · rw [if_pos hb] at he
    exact hs e (List.mem_of_mem_filter he)
  · rw [if_neg hb] at he
    rcases mem_alSet he with h | h
    · rw [h]
      intro hcontra
      exact hb (by simp [show bm = [] from hcontra])
    · exact hs e h

theorem skbmMSet_pres {s : SkbmStore} (hs : ∀ kv ∈ s, kv.2 ≠ [])
    (items : List (Nat × Bitmap)) : ∀ kv ∈ skbmMSet s items, kv.2 ≠ [] := by
  unfold skbmMSet
  refine foldl_skbmUpsert_pres (fun kv hkv => hs kv (List.mem_of_mem_filter hkv)) ?_
  intro it hit
  have h2 := List.of_mem_filter hit
  intro hcontra
  simp [hcontra] at h2

/-! Claim theorems. -/

/-- Claim C2 (code_bug evidence): on a fresh (table, field) sparse index with
SplitThreshold 2, the Add sequence (fv 100, id 1), (100, 2), (100, 3) ends
with the three live ids held in a single stored bucket bitmap of one id: the
split at equal forward values emits both halves under sort key 100 and the
second hash write overwrites the first, so ids 2 and 3 sit in zero buckets,
not in exactly one as the claim requires. -/
theorem c2_split_loses_ids :
    c2State.2.map Prod.fst = [1, 2, 3] ∧
    (c2State.1.map (fun kv => kv.2.length)).sum = 1 ∧
    bucketCount c2State.1 2 = 0 ∧ bucketCount c2State.1 3 = 0 := by
  decide

/-- Claim C5: with a provider_id filter, List subtracts the term bitmap
stored under the null token in notNull mode, intersects with that same
bitmap in null mode, and the nil pointer encodes to the value key null. -/
theorem c5_provider_null_filter (bs : BmStore) (os pid lim : Option Int) (v : Int) :
    filterAcc bs ⟨os, pid, some ⟨FilterMode.notNull, v⟩, lim⟩ =
      bmAndNot (filterAcc bs ⟨os, pid, none, lim⟩)
        (bmStoreGet bs (termIndexKey "provider_id") "null") ∧
    filterAcc bs ⟨os, pid, some ⟨FilterMode.null, v⟩, lim⟩ =
      bmAnd (filterAcc bs ⟨os, pid, none, lim⟩)
        (bmStoreGet bs (termIndexKey "provider_id") "null") ∧
    makeValueKeyOptInt none = "null" :=
  ⟨rfl, rfl, rfl⟩

/-- Claim C6: the write primitives of the term store and the sparse bucket
store never store an empty bitmap, deleting the key instead, so they and the
Add and Remove operations built on them preserve the invariant that every
stored bitmap is non-empty. -/
theorem c6_no_empty_bitmap_stored (bs : BmStore) (sk : SkbmStore) (fvs : FvStore)
    (ik vk : String) (bm : Bitmap) (items : List (Nat × Bitmap))
    (threshold fv id : Nat)
    (hbm : ∀ e ∈ bs, e.2 ≠ []) (hsk : ∀ kv ∈ sk, kv.2 ≠ []) :
    (∀ e ∈ bmStoreSet bs ik vk bm, e.2 ≠ []) ∧
    (∀ kv ∈ skbmMSet sk items, kv.2 ≠ []) ∧
    (∀ e ∈ termAdd bs ik vk id, e.2 ≠ []) ∧
    (∀ e ∈ termRemove bs ik vk id, e.2 ≠ []) ∧
    (∀ kv ∈ (sparseAdd threshold sk fvs fv id).1, kv.2 ≠ []) ∧
    (∀ kv ∈ (sparseRemove sk fvs fv id).1, kv.2 ≠ []) := by
  refine ⟨bmStoreSet_pres hbm ik vk bm, skbmMSet_pres hsk items,
    bmStoreSet_pres hbm ik vk _, bmStoreSet_pres hbm ik vk _, ?_, ?_⟩
  · unfold sparseAdd
    exact skbmMSet_pres hsk _
  · unfold sparseRemove
    rcases h : getFloorSortedBm sk fv with _ | floorBm
    · simpa using hsk
    · simpa using skbmMSet_pres hsk _

/-- Claim C6 witness. -/
theorem c6_no_empty_bitmap_stored_witness :
    (∀ e ∈ ([(((termIndexKey "__all"), "0"), [5])] : BmStore), e.2 ≠ []) ∧
    (∀ kv ∈ ([(7, [1])] : SkbmStore), kv.2 ≠ []) ∧
    (∀ e ∈ bmStoreSet [(((termIndexKey "__all"), "0"), [5])] (termIndexKey "__all") "0" [], e.2 ≠ []) :=
  ⟨by decide, by decide,
    (c6_no_empty_bitmap_stored [(((termIndexKey "__all"), "0"), [5])] [(7, [1])] []
      (termIndexKey "__all") "0" [] [] 2 3 4 (by decide) (by decide)).1⟩

/-- Claim C7: when Remove finds no floor bucket it is non-fatal: the bucket
store is untouched, the forward entry of the id is removed all the same, and
replaying the Remove against the resulting state leaves it unchanged. -/
theorem c7_remove_missing_floor (sk : SkbmStore) (fvs : FvStore) (fv id : Nat)
    (h : getFloorSortedBm sk fv = none) :
    (sparseRemove sk fvs fv id).1 = sk ∧
    (sparseRemove sk fvs fv id).2 = fvRemove fvs id ∧
    (∀ e ∈ (sparseRemove sk fvs fv id).2, e.1 ≠ id) ∧
    sparseRemove (sparseRemove sk fvs fv id).1 (sparseRemove sk fvs fv id).2 fv id =
      sparseRemove sk fvs fv id := by
  have h1 : (sparseRemove sk fvs fv id).1 = sk := by
    unfold sparseRemove
    rw [h]
  have h2 : (sparseRemove sk fvs fv id).2 = fvRemove fvs id := rfl
  refine ⟨h1, h2, ?_, ?_⟩
  · intro e he
    rw [h2] at he
    have := List.of_mem_filter he
    simpa using this
  · rw [h1, h2]
    unfold sparseRemove
    rw [h]
    unfold fvRemove
    rw [List.filter_filter]
    simp

/-- Claim C7 witness. -/
theorem c7_remove_missing_floor_witness :
    getFloorSortedBm ([] : SkbmStore) 3 = none ∧
    (sparseRemove [] [(1, 5)] 3 1).1 = [] ∧
    (sparseRemove [] [(1, 5)] 3 1).2 = fvRemove [(1, 5)] 1 :=
  ⟨by decide, (c7_remove_missing_floor [] [(1, 5)] 3 1 (by decide)).1,
    (c7_remove_missing_floor [] [(1, 5)] 3 1 (by decide)).2.1⟩

theorem map_sortId_id (fvs : FvStore) (bm : Bitmap) :
    (bm.map (fun id => SortId.mk id (fvGetD fvs id))).map SortId.id = bm := by
  rw [List.map_map]
  induction bm with
  | nil => rfl
  | cons x xs ih => simpa using ih

/-- Claim C8 counterexample: the comparator of the writer-side sort used by
the split path orders by forward value only; two entries with equal forward
values and different ids compare as unordered in both directions, so no
per-id secondary sort is applied there (the id tie break exists only in the
reader-side QuerySortIds). -/
theorem c8_no_per_id_tiebreak :
    sortedIdLess (SortId.mk 1 5) (SortId.mk 2 5) = false ∧
    sortedIdLess (SortId.mk 2 5) (SortId.mk 1 5) = false ∧
    (SortId.mk 1 5).id ≠ (SortId.mk 2 5).id := by
  decide

/-- Claim C8 amended: the split of a bucket is a pure function of the stored
state, so two runs over the same state cut the same two halves, and for a
duplicate-free bucket the two halves partition the ids of the bucket, each id
landing in exactly one half; the determinism does not come from a per-id
comparator, which the writer-side sort lacks, but from the fixed iteration
order of the bitmap together with the deterministic sort. -/
theorem c8_split_partitions (fvs : FvStore) (bm : Bitmap) (m : Nat)
    (hnd : bm.Nodup) :
    (((querySortedIds fvs bm).take m).map SortId.id ++
      ((querySortedIds fvs bm).drop m).map SortId.id).Perm bm ∧
    ∀ x : Nat, ¬ (x ∈ ((querySortedIds fvs bm).take m).map SortId.id ∧
      x ∈ ((querySortedIds fvs bm).drop m).map SortId.id) := by
  have hsplit : ((querySortedIds fvs bm).take m).map SortId.id ++
      ((querySortedIds fvs bm).drop m).map SortId.id =
      (querySortedIds fvs bm).map SortId.id := by
    rw [← List.map_append, List.take_append_drop]
  have hperm : ((querySortedIds fvs bm).map SortId.id).Perm bm := by
    unfold querySortedIds
    have h1 := List.perm_insertionSort (fun a b => a.score ≤ b.score)
      (bm.map (fun id => SortId.mk id (fvGetD fvs id)))
    have h2 := h1.map SortId.id
    rw [map_sortId_id] at h2
    exact h2
  constructor
  · rw [hsplit]
    exact hperm
  · have hnodup : (((querySortedIds fvs bm).take m).map SortId.id ++
        ((querySortedIds fvs bm).drop m).map SortId.id).Nodup := by
      rw [hsplit]
      exact hperm.nodup_iff.mpr hnd
    intro x hx
    exact (List.disjoint_of_nodup_append hnodup) hx.1 hx.2

/-- Claim C8 amended witness. -/
theorem c8_split_partitions_witness :
    ([1, 2] : Bitmap).Nodup ∧
    (((querySortedIds [(1, 5), (2, 7)] [1, 2]).take 1).map SortId.id ++
      ((querySortedIds [(1, 5), (2, 7)] [1, 2]).drop 1).map SortId.id).Perm [1, 2] :=
  ⟨by decide, (c8_split_partitions [(1, 5), (2, 7)] [1, 2] 1 (by decide)).1⟩

/-- Claim C3: when Add finds a floor bucket at or above the split threshold,
it sorts the bucket by exact forward value, cuts at the median index, passes
to MSet exactly the two buckets keyed by the first forward value of the lower
and upper half and carrying those halves, and adds the new id to the second
bucket unless the inserted value is below the first forward value of the
upper half. -/
theorem c3_split_shape (threshold : Nat) (sk : SkbmStore) (fvs : FvStore)
    (fv id floorKey : Nat) (floorBm : Bitmap)
    (hfloor : getFloorSortedBm sk fv = some (floorKey, floorBm))
    (hcard : threshold ≤ floorBm.length)
    (hlen : 2 ≤ (querySortedIds fvs floorBm).length) :
    sparseAdd threshold sk fvs fv id =
      (skbmMSet sk (splitSpec (querySortedIds fvs floorBm) fv id), fvSet fvs id fv) := by
  simp only [sparseAdd, splitSpec, hfloor]
  rw [if_neg (by omega)]
  set l := querySortedIds fvs floorBm with hl
  have hmid : l.length / 2 ≠ 0 := by omega
  rw [headD_take hmid, headD_drop]
  by_cases hc : (l.getD (l.length / 2) (SortId.mk 0 0)).score ≤ fv
  · rw [if_pos hc, if_pos hc]
  · rw [if_neg hc, if_neg hc]

/-- Claim C3 witness. -/
theorem c3_split_shape_witness :
    getFloorSortedBm [(10, [1, 2])] 30 = some (10, [1, 2]) ∧
    2 ≤ ([1, 2] : Bitmap).length ∧
    2 ≤ (querySortedIds [(1, 10), (2, 20)] [1, 2]).length ∧
    sparseAdd 2 [(10, [1, 2])] [(1, 10), (2, 20)] 30 3 =
      (skbmMSet [(10, [1, 2])]
        (splitSpec (querySortedIds [(1, 10), (2, 20)] [1, 2]) 30 3),
       fvSet [(1, 10), (2, 20)] 3 30) :=
  ⟨by decide, by decide, by decide,
    c3_split_shape 2 [(10, [1, 2])] [(1, 10), (2, 20)] 30 3 10 [1, 2]
      (by decide) (by decide) (by decide)⟩

/-! Scan equivalence machinery for claim C4. -/

theorem procBuckets_eq {σ : Type} (fvs : FvStore) (base : Bitmap) (rev : Bool)
    (proc : σ → List SortId → σ × Bool) (acc : σ) (bl : List (Nat × Bitmap)) :
    procBuckets fvs base rev proc acc bl =
      foldStopFlag proc acc (bl.filterMap (bucketBatch fvs base rev)) := by
  induction bl generalizing acc with
  | nil => rfl
  | cons b rest ih =>
    rw [procBuckets]
    by_cases hi : (bmAnd b.2 base).length = 0
    · rw [if_pos hi]
      have hb : bucketBatch fvs base rev b = none := by
        unfold bucketBatch
        rw [if_pos hi]
      rw [List.filterMap_cons, hb]
      exact ih acc
    · rw [if_neg hi]
      have hb : bucketBatch fvs base rev b =
          some (if rev then (querySortIds fvs (bmAnd b.2 base)).reverse
                else querySortIds fvs (bmAnd b.2 base)) := by
        unfold bucketBatch
        rw [if_neg hi]
      rw [List.filterMap_cons, hb, foldStopFlag]
      rcases hm : proc acc (if rev then (querySortIds fvs (bmAnd b.2 base)).reverse
        else querySortIds fvs (bmAnd b.2 base)) with ⟨acc1, c⟩
      rcases c with _ | _
      · rfl
      · exact ih acc1

theorem foldStop_append {σ β : Type} (proc : σ → β → σ × Bool) (acc : σ)
    (l1 l2 : List β) :
    foldStop proc acc (l1 ++ l2) =
      (match foldStopFlag proc acc l1 with
       | (a, true) => foldStop proc a l2
       | (a, false) => a) := by
  induction l1 generalizing acc with
  | nil => rfl
  | cons x xs ih =>
    rw [List.cons_append, foldStop, foldStopFlag]
    rcases hm : proc acc x with ⟨a, c⟩
    rcases c with _ | _
    · rfl
    · exact ih a

theorem pairwise_le_getLast {l : List (Nat × Bitmap)}
    (h : l.Pairwise (fun a b => a.1 < b.1)) {last : Nat × Bitmap}
    (hl : l.getLast? = some last) : ∀ e ∈ l, e.1 ≤ last.1 := by
  induction l with
  | nil => cases hl
  | cons x xs ih =>
    intro e he
    cases xs with
    | nil =>
      rw [List.getLast?_singleton] at hl
      rcases List.mem_singleton.mp he with rfl
      simp only [Option.some.injEq] at hl
      rw [hl]
    | cons y ys =>
      rw [List.getLast?_cons_cons] at hl
      rcases List.mem_cons.mp he with rfl | he2
      · have hlm : last ∈ y :: ys := List.mem_of_getLast?_eq_some hl
        exact Nat.le_of_lt ((List.pairwise_cons.mp h).1 last hlm)
      · exact ih (List.pairwise_cons.mp h).2 hl e he2

theorem pairwise_ge_getLast {l : List (Nat × Bitmap)}
    (h : l.Pairwise (fun a b => b.1 < a.1)) {last : Nat × Bitmap}
    (hl : l.getLast? = some last) : ∀ e ∈ l, last.1 ≤ e.1 := by
  induction l with
  | nil => cases hl
  | cons x xs ih =>
    intro e he
    cases xs with
    | nil =>
      rw [List.getLast?_singleton] at hl
      rcases List.mem_singleton.mp he with rfl
      simp only [Option.some.injEq] at hl
      rw [hl]
    | cons y ys =>
      rw [List.getLast?_cons_cons] at hl
      rcases List.mem_cons.mp he with rfl | he2
      · have hlm : last ∈ y :: ys := List.mem_of_getLast?_eq_some hl
        exact Nat.le_of_lt ((List.pairwise_cons.mp h).1 last hlm)
      · exact ih (List.pairwise_cons.mp h).2 hl e he2

theorem filter_gt_last_take {l : List (Nat × Bitmap)}
    (h : l.Pairwise (fun a b => a.1 < b.1)) {n : Nat} {last : Nat × Bitmap}
    (hl : (l.take n).getLast? = some last) :
    l.filter (fun kv => decide (last.1 < kv.1)) = l.drop n := by
  have htd : l.take n ++ l.drop n = l := List.take_append_drop n l
  have hpw : (l.take n ++ l.drop n).Pairwise (fun a b => a.1 < b.1) := htd.symm ▸ h
  have hcross := (List.pairwise_append.mp hpw).2.2
  have hlast_mem : last ∈ l.take n := List.mem_of_getLast?_eq_some hl
  conv_lhs => rw [← htd]
  rw [List.filter_append]
  have h1 : (l.take n).filter (fun kv => decide (last.1 < kv.1)) = [] := by
    apply List.filter_eq_nil_iff.mpr
    intro e he
    have hle : e.1 ≤ last.1 :=
      pairwise_le_getLast ((List.pairwise_append.mp hpw).1) hl e he
    simpa using Nat.not_lt.mpr hle
  have h2 : (l.drop n).filter (fun kv => decide (last.1 < kv.1)) = l.drop n := by
    apply List.filter_eq_self.mpr
    intro e he
    simpa using hcross _ hlast_mem e he
  rw [h1, h2, List.nil_append]

theorem filter_lt_last_take_desc {l : List (Nat × Bitmap)}
    (h : l.Pairwise (fun a b => b.1 < a.1)) {n : Nat} {last : Nat × Bitmap}
    (hl : (l.take n).getLast? = some last) :
    l.filter (fun kv => decide (kv.1 < last.1)) = l.drop n := by
  have htd : l.take n ++ l.drop n = l := List.take_append_drop n l
  have hpw : (l.take n ++ l.drop n).Pairwise (fun a b => b.1 < a.1) := htd.symm ▸ h
  have hcross := (List.pairwise_append.mp hpw).2.2
  have hlast_mem : last ∈ l.take n := List.mem_of_getLast?_eq_some hl
  conv_lhs => rw [← htd]
  rw [List.filter_append]
  have h1 : (l.take n).filter (fun kv => decide (kv.1 < last.1)) = [] := by
    apply List.filter_eq_nil_iff.mpr
    intro e he
    have hle : last.1 ≤ e.1 :=
      pairwise_ge_getLast ((List.pairwise_append.mp hpw).1) hl e he
    simpa using Nat.not_lt.mpr hle
  have h2 : (l.drop n).filter (fun kv => decide (kv.1 < last.1)) = l.drop n := by
    apply List.filter_eq_self.mpr
    intro e he
    simpa using hcross _ hlast_mem e he
  rw [h1, h2, List.nil_append]

theorem scanLoop_fwd {σ : Type} (sk : SkbmStore) (fvs : FvStore) (base : Bitmap)
    (proc : σ → List SortId → σ × Bool)
    (hs : sk.Pairwise (fun a b => a.1 < b.1))
    (hb : ∀ kv ∈ sk, kv.1 < U64MAX) :
    ∀ (fuel start : Nat) (acc : σ),
      (sk.filter (fun kv => inScanRange false start U64MAX kv.1)).length < fuel →
      scanLoop sk fvs base false proc U64MAX fuel start acc =
        foldStop proc acc
          ((sk.filter (fun kv => inScanRange false start U64MAX kv.1)).filterMap
            (bucketBatch fvs base false)) := by
  intro fuel
  induction fuel with
  | zero =>
    intro start acc hfuel
    exact absurd hfuel (Nat.not_lt_zero _)
  | succ fuel ih =>
      intro start acc hfuel
      rw [scanLoop]
      by_cases h1 : start = U64MAX
      · rw [if_pos h1]
        have hf : sk.filter (fun kv => inScanRange false start U64MAX kv.1) = [] := by
          apply List.filter_eq_nil_iff.mpr
          intro kv hkv
          have hkb := hb kv hkv
          subst h1
          rw [inScanRange_false_eq]
          omega
        rw [hf]
        rfl
      · rw [if_neg h1]
        by_cases h2 : skbmScan sk start U64MAX false 100 = []
        · rw [dif_pos h2]
          have h2b : (sk.filter (fun kv => inScanRange false start U64MAX kv.1)).take 100 = [] := h2
          have hR : sk.filter (fun kv => inScanRange false start U64MAX kv.1) = [] := by
            rcases List.take_eq_nil_iff.mp h2b with h | h
            · omega
            · exact h
          rw [hR]
          rfl
        · rw [dif_neg h2]
          have hpage : skbmScan sk start U64MAX false 100 =
              (sk.filter (fun kv => inScanRange false start U64MAX kv.1)).take 100 := rfl
          have hlastq := List.getLast?_eq_getLast_of_ne_nil h2
          set L := (skbmScan sk start U64MAX false 100).getLast h2 with hLdef
          have hLmem : L ∈ sk.filter (fun kv => inScanRange false start U64MAX kv.1) :=
            mem_filter_of_mem_skbmScan (List.getLast_mem h2)
          have hLsk : L ∈ sk := List.mem_of_mem_filter hLmem
          have hLlt : L.1 < U64MAX := hb L hLsk
          have hLp : start ≤ L.1 ∧ L.1 ≤ U64MAX :=
            inScanRange_false_eq.mp ((List.mem_filter.mp hLmem).2)
          have hsn : scanNext false U64MAX L.1 = L.1 + 1 := by
            unfold scanNext
            rw [if_neg (by omega)]
            simp
          have hRsorted : (sk.filter (fun kv => inScanRange false start U64MAX kv.1)).Pairwise
              (fun a b => a.1 < b.1) := hs.sublist (List.filter_sublist sk)
          rw [hpage] at hlastq
          have hfilterdrop : sk.filter (fun kv => inScanRange false (L.1 + 1) U64MAX kv.1) =
              (sk.filter (fun kv => inScanRange false start U64MAX kv.1)).drop 100 := by
            have hcongr : sk.filter (fun kv => inScanRange false (L.1 + 1) U64MAX kv.1) =
                sk.filter (fun kv => decide (L.1 < kv.1) &&
                  inScanRange false start U64MAX kv.1) := by
              apply List.filter_congr
              intro kv hkv
              show (decide (L.1 + 1 ≤ kv.1) && decide (kv.1 ≤ U64MAX)) =
                (decide (L.1 < kv.1) && (decide (start ≤ kv.1) && decide (kv.1 ≤ U64MAX)))
              rw [← Bool.decide_and, ← Bool.decide_and, ← Bool.decide_and, decide_eq_decide]
              omega
            rw [hcongr, ← List.filter_filter]
            exact filter_gt_last_take hRsorted hlastq
          have hRsplit : sk.filter (fun kv => inScanRange false start U64MAX kv.1) =
              skbmScan sk start U64MAX false 100 ++
                (sk.filter (fun kv => inScanRange false start U64MAX kv.1)).drop 100 := by
            rw [hpage]
            exact (List.take_append_drop _ _).symm
          conv_rhs => rw [hRsplit]
          rw [List.filterMap_append, foldStop_append, procBuckets_eq]
          rcases hflag : foldStopFlag proc acc
              ((skbmScan sk start U64MAX false 100).filterMap (bucketBatch fvs base false))
            with ⟨acc1, c⟩
          rcases c with _ | _
          · rfl
          · show scanLoop sk fvs base false proc U64MAX fuel (scanNext false U64MAX L.1) acc1 =
              foldStop proc acc1
                (((sk.filter (fun kv => inScanRange false start U64MAX kv.1)).drop 100).filterMap
                  (bucketBatch fvs base false))
            have hRne : sk.filter (fun kv => inScanRange false start U64MAX kv.1) ≠ [] := by
              intro hcontra
              rw [hpage, hcontra] at h2
              exact h2 rfl
            have hfuel2 :
                (sk.filter (fun kv => inScanRange false (L.1 + 1) U64MAX kv.1)).length < fuel := by
              rw [hfilterdrop, List.length_drop]
              have hlen : 0 < (sk.filter (fun kv => inScanRange false start U64MAX kv.1)).length :=
                List.length_pos.mpr hRne
              omega
            have hrec := ih (scanNext false U64MAX L.1) acc1 (by rw [hsn]; exact hfuel2)
            rw [hsn] at hrec
            rw [hfilterdrop] at hrec
            rw [hsn]
            exact hrec

theorem scanLoop_rev {σ : Type} (sk : SkbmStore) (fvs : FvStore) (base : Bitmap)
    (proc : σ → List SortId → σ × Bool)
    (hs : sk.Pairwise (fun a b => a.1 < b.1))
    (hb0 : ∀ kv ∈ sk, 0 < kv.1) :
    ∀ (fuel start : Nat) (acc : σ),
      (sk.filter (fun kv => inScanRange true start 0 kv.1)).length < fuel →
      scanLoop sk fvs base true proc 0 fuel start acc =
        foldStop proc acc
          (((sk.filter (fun kv => inScanRange true start 0 kv.1)).reverse).filterMap
            (bucketBatch fvs base true)) := by
  intro fuel
  induction fuel with
  | zero =>
    intro start acc hfuel
    exact absurd hfuel (Nat.not_lt_zero _)
  | succ fuel ih =>
      intro start acc hfuel
      rw [scanLoop]
      by_cases h1 : start = 0
      · rw [if_pos h1]
        have hf : sk.filter (fun kv => inScanRange true start 0 kv.1) = [] := by
          apply List.filter_eq_nil_iff.mpr
          intro kv hkv
          have hkb := hb0 kv hkv
          subst h1
          rw [inScanRange_true_eq]
          omega
        rw [hf]
        rfl
      · rw [if_neg h1]
        by_cases h2 : skbmScan sk start 0 true 100 = []
        · rw [dif_pos h2]
          have h2b : ((sk.filter (fun kv => inScanRange true start 0 kv.1)).reverse).take 100
              = [] := h2
          have hR : (sk.filter (fun kv => inScanRange true start 0 kv.1)).reverse = [] := by
            rcases List.take_eq_nil_iff.mp h2b with h | h
            · omega
            · exact h
          rw [hR]
          rfl
        · rw [dif_neg h2]
          have hpage : skbmScan sk start 0 true 100 =
              ((sk.filter (fun kv => inScanRange true start 0 kv.1)).reverse).take 100 := rfl
          have hlastq := List.getLast?_eq_getLast_of_ne_nil h2
          set L := (skbmScan sk start 0 true 100).getLast h2 with hLdef
          have hLmem : L ∈ sk.filter (fun kv => inScanRange true start 0 kv.1) :=
            mem_filter_of_mem_skbmScan (List.getLast_mem h2)
          have hLsk : L ∈ sk := List.mem_of_mem_filter hLmem
          have hLgt : 0 < L.1 := hb0 L hLsk
          have hLp : 0 ≤ L.1 ∧ L.1 ≤ start :=
            inScanRange_true_eq.mp ((List.mem_filter.mp hLmem).2)
          have hsn : scanNext true 0 L.1 = L.1 - 1 := by
            unfold scanNext
            rw [if_neg (by omega)]
            simp
          have hRsorted : ((sk.filter (fun kv => inScanRange true start 0 kv.1)).reverse).Pairwise
              (fun a b => b.1 < a.1) := by
            rw [List.pairwise_reverse]
            exact (hs.sublist (List.filter_sublist sk)).imp (fun hab => hab)
          rw [hpage] at hlastq
          have hfilterdrop : (sk.filter (fun kv => inScanRange true (L.1 - 1) 0 kv.1)).reverse =
              ((sk.filter (fun kv => inScanRange true start 0 kv.1)).reverse).drop 100 := by
            have hcongr : sk.filter (fun kv => inScanRange true (L.1 - 1) 0 kv.1) =
                sk.filter (fun kv => decide (kv.1 < L.1) &&
                  inScanRange true start 0 kv.1) := by
              apply List.filter_congr
              intro kv hkv
              show (decide (0 ≤ kv.1) && decide (kv.1 ≤ L.1 - 1)) =
                (decide (kv.1 < L.1) && (decide (0 ≤ kv.1) && decide (kv.1 ≤ start)))
              rw [← Bool.decide_and, ← Bool.decide_and, ← Bool.decide_and, decide_eq_decide]
              omega
            rw [hcongr, ← List.filter_filter]
            rw [← List.filter_reverse]
            exact filter_lt_last_take_desc hRsorted hlastq
          have hRsplit : (sk.filter (fun kv => inScanRange true start 0 kv.1)).reverse =
              skbmScan sk start 0 true 100 ++
                ((sk.filter (fun kv => inScanRange true start 0 kv.1)).reverse).drop 100 := by
            rw [hpage]
            exact (List.take_append_drop _ _).symm
          conv_rhs => rw [hRsplit]
          rw [List.filterMap_append, foldStop_append, procBuckets_eq]
          rcases hflag : foldStopFlag proc acc
              ((skbmScan sk start 0 true 100).filterMap (bucketBatch fvs base true))
            with ⟨acc1, c⟩
          rcases c with _ | _
          · rfl
          · show scanLoop sk fvs base true proc 0 fuel (scanNext true 0 L.1) acc1 =
              foldStop proc acc1
                ((((sk.filter (fun kv => inScanRange true start 0 kv.1)).reverse).drop 100).filterMap
                  (bucketBatch fvs base true))
            have hRne : (sk.filter (fun kv => inScanRange true start 0 kv.1)).reverse ≠ [] := by
              intro hcontra
              rw [hpage, hcontra] at h2
              exact h2 rfl
            have hfuel2 :
                (sk.filter (fun kv => inScanRange true (L.1 - 1) 0 kv.1)).length < fuel := by
              have hlen1 : ((sk.filter (fun kv => inScanRange true (L.1 - 1) 0 kv.1)).reverse).length
                  = (((sk.filter (fun kv => inScanRange true start 0 kv.1)).reverse).drop 100).length := by
                rw [hfilterdrop]
              rw [List.length_reverse, List.length_drop, List.length_reverse] at hlen1
              have hlen : 0 < ((sk.filter (fun kv => inScanRange true start 0 kv.1)).reverse).length :=
                List.length_pos.mpr hRne
              rw [List.length_reverse] at hlen
              omega
            have hrec := ih (scanNext true 0 L.1) acc1 (by rw [hsn]; exact hfuel2)
            rw [hsn] at hrec
            rw [hfilterdrop] at hrec
            rw [hsn]
            exact hrec

theorem sparseScan_deliv {σ : Type} (sk : SkbmStore) (fvs : FvStore) (base : Bitmap)
    (proc : σ → List SortId → σ × Bool) (s0 : σ) (reverse : Bool)
    (hs : sk.Pairwise (fun a b => a.1 < b.1))
    (hb : ∀ kv ∈ sk, 0 < kv.1 ∧ kv.1 < U64MAX) :
    sparseScan sk fvs base reverse proc s0 =
      foldStop proc s0 (deliveredBatches sk fvs base reverse) := by
  unfold sparseScan deliveredBatches
  rcases reverse with _ | _
  · show scanLoop sk fvs base false proc U64MAX (sk.length + 1) 0 s0 = _
    rw [scanLoop_fwd sk fvs base proc hs (fun kv hkv => (hb kv hkv).2) (sk.length + 1) 0 s0
      (Nat.lt_succ_of_le (List.length_filter_le _ _))]
    have hf : sk.filter (fun kv => inScanRange false 0 U64MAX kv.1) = sk := by
      apply List.filter_eq_self.mpr
      intro kv hkv
      rw [inScanRange_false_eq]
      exact ⟨Nat.zero_le _, Nat.le_of_lt (hb kv hkv).2⟩
    rw [hf]
    rfl
  · show scanLoop sk fvs base true proc 0 (sk.length + 1) U64MAX s0 = _
    rw [scanLoop_rev sk fvs base proc hs (fun kv hkv => (hb kv hkv).1) (sk.length + 1) U64MAX s0
      (Nat.lt_succ_of_le (List.length_filter_le _ _))]
    have hf : sk.filter (fun kv => inScanRange true U64MAX 0 kv.1) = sk := by
      apply List.filter_eq_self.mpr
      intro kv hkv
      rw [inScanRange_true_eq]
      exact ⟨Nat.zero_le _, Nat.le_of_lt (hb kv hkv).2⟩
    rw [hf]
    rfl

/-- Claim C4 counterexample: on a store of 101 buckets with keys 0 to 100, a
reverse scan stops once the cursor reaches the end sentinel 0 after the first
page of 100 buckets, so the bucket with sort key 0 is never visited even
though its intersection with the base bitmap is non-empty; the delivered
batches differ from the claimed ones. -/
theorem c4_scan_misses_sentinel_bucket :
    sparseScan c4Store c4Fvs c4Base true collectBatches [] ≠
      foldStop collectBatches [] (deliveredBatches c4Store c4Fvs c4Base true) ∧
    (sparseScan c4Store c4Fvs c4Base true collectBatches []).length = 100 ∧
    (foldStop collectBatches [] (deliveredBatches c4Store c4Fvs c4Base true)).length = 101 := by
  refine ⟨?_, by decide, by decide⟩
  decide

/-- Claim C4 amended: provided no bucket sort key equals a scan sentinel
(0 or the u64 maximum), Scan visits buckets in ascending, or descending when
reverse, sort-key order, skips empty intersections with the base bitmap,
delivers each non-empty intersection sorted ascending by (forward value, id)
and reversed before delivery on a reverse scan, and stops as soon as the
callback returns false: it equals the early-stopping fold over exactly the
claimed batch sequence. -/
theorem c4_scan_delivers {σ : Type} (sk : SkbmStore) (fvs : FvStore) (base : Bitmap)
    (proc : σ → List SortId → σ × Bool) (s0 : σ) (reverse : Bool)
    (hs : sk.Pairwise (fun a b => a.1 < b.1))
    (hb : ∀ kv ∈ sk, 0 < kv.1 ∧ kv.1 < U64MAX) :
    sparseScan sk fvs base reverse proc s0 =
      foldStop proc s0 (deliveredBatches sk fvs base reverse) :=
  sparseScan_deliv sk fvs base proc s0 reverse hs hb

/-- Claim C4 amended witness. -/
theorem c4_scan_delivers_witness :
    ([(5, [1, 2]), (10, [3])] : SkbmStore).Pairwise (fun a b => a.1 < b.1) ∧
    (∀ kv ∈ ([(5, [1, 2]), (10, [3])] : SkbmStore), 0 < kv.1 ∧ kv.1 < U64MAX) ∧
    sparseScan [(5, [1, 2]), (10, [3])] [(1, 5), (2, 5), (3, 10)] [1, 3] true
        collectBatches [] =
      foldStop collectBatches []
        (deliveredBatches [(5, [1, 2]), (10, [3])] [(1, 5), (2, 5), (3, 10)] [1, 3] true) :=
  ⟨by decide, by decide,
    c4_scan_delivers [(5, [1, 2]), (10, [3])] [(1, 5), (2, 5), (3, 10)] [1, 3]
      collectBatches [] true (by decide) (by decide)⟩

/-! Lemmas for claim C10. -/

theorem appendIds_none : ∀ (ids : List Nat) (batch : List SortId),
    appendIds none ids batch = (ids ++ batch.map SortId.id, true) := by
  intro ids batch
  induction batch generalizing ids with
  | nil => simp [appendIds]
  | cons s rest ih =>
    rw [appendIds]
    rw [ih (ids ++ [s.id])]
    simp

theorem foldStop_appendIds (l : List (List SortId)) : ∀ acc : List Nat,
    foldStop (fun a b => appendIds none a b) acc l =
      acc ++ (l.map (fun batch => batch.map SortId.id)).flatten := by
  induction l with
  | nil => intro acc; simp [foldStop]
  | cons x xs ih =>
    intro acc
    rw [foldStop]
    rw [appendIds_none acc x]
    show foldStop (fun a b => appendIds none a b) (acc ++ x.map SortId.id) xs = _
    rw [ih (acc ++ x.map SortId.id)]
    simp

theorem count_nodup {l : List Nat} (h : l.Nodup) (x : Nat) :
    l.count x = if x ∈ l then 1 else 0 := by
  by_cases hx : x ∈ l
  · rw [if_pos hx]
    exact List.count_eq_one_of_mem h hx
  · rw [if_neg hx]
    exact List.count_eq_zero_of_not_mem hx

theorem count_bmAnd {b2 : Bitmap} (hnd : b2.Nodup) (base : Bitmap) (x : Nat) :
    (bmAnd b2 base).count x = if x ∈ b2 ∧ x ∈ base then 1 else 0 := by
  unfold bmAnd
  rw [count_nodup (hnd.filter _)]
  by_cases hx : x ∈ b2 ∧ x ∈ base
  · rw [if_pos hx, if_pos]
    rw [List.mem_filter]
    exact ⟨hx.1, by simpa using hx.2⟩
  · rw [if_neg hx, if_neg]
    rw [List.mem_filter]
    intro hcontra
    exact hx ⟨hcontra.1, by simpa using hcontra.2⟩

theorem deliv_count (fvs : FvStore) (base : Bitmap) (rev : Bool)
    (bl : List (Nat × Bitmap)) (x : Nat) :
    ((bl.filterMap (bucketBatch fvs base rev)).map
      (fun batch => (batch.map SortId.id).count x)).sum =
    (bl.map (fun b => (bmAnd b.2 base).count x)).sum := by
  induction bl with
  | nil => rfl
  | cons b rest ih =>
    rw [List.filterMap_cons, List.map_cons, List.sum_cons]
    by_cases hi : (bmAnd b.2 base).length = 0
    · have hb : bucketBatch fvs base rev b = none := by
        unfold bucketBatch
        rw [if_pos hi]
      rw [hb]
      have hinter : bmAnd b.2 base = [] := List.length_eq_zero.mp hi
      rw [hinter, ih]
      simp
    · have hb : bucketBatch fvs base rev b =
          some (if rev then (querySortIds fvs (bmAnd b.2 base)).reverse
                else querySortIds fvs (bmAnd b.2 base)) := by
        unfold bucketBatch
        rw [if_neg hi]
      rw [hb, List.map_cons, List.sum_cons, ih]
      have hqs : ((querySortIds fvs (bmAnd b.2 base)).map SortId.id).count x =
          (bmAnd b.2 base).count x := by
        have hperm := (List.perm_insertionSort readerLE
          ((bmAnd b.2 base).map (fun id => SortId.mk id (fvGetD fvs id)))).map SortId.id
        rw [map_sortId_id] at hperm
        exact hperm.count_eq x
      rcases rev with _ | _
      · simp only [Bool.false_eq_true, if_false]
        rw [hqs]
      · simp only [if_true]
        rw [List.map_reverse, List.count_reverse, hqs]

theorem sum_map_ite_one (base : Bitmap) (x : Nat) (bl : List (Nat × Bitmap)) :
    (bl.map (fun b => if x ∈ b.2 ∧ x ∈ base then (1 : Nat) else 0)).sum =
      if x ∈ base then bl.countP (fun b => decide (x ∈ b.2)) else 0 := by
  induction bl with
  | nil => simp
  | cons b rest ih =>
    rw [List.map_cons, List.sum_cons, ih, List.countP_cons]
    by_cases hbase : x ∈ base
    · rw [if_pos hbase, if_pos hbase]
      by_cases hb : x ∈ b.2
      · rw [if_pos ⟨hb, hbase⟩]
        simp [hb]
        omega
      · rw [if_neg (fun hc => hb hc.1)]
        simp [hb]
    · rw [if_neg hbase, if_neg hbase, if_neg (fun hc => hbase hc.2)]

/-- Claim C10 counterexample: a store in which id 2 is live in the universe
posting and the forward map but lies in no sparse bucket; with no filters and
no limit the filter intersection is the non-empty set of ids 1 and 2, yet
List returns a single id, so the IDs list does not contain every id of the
intersection and its length differs from Total. -/
theorem c10_missing_bucket_id :
    (ordersList c10DB c10Req).total = 2 ∧
    (ordersList c10DB c10Req).ids = [1] ∧
    (ordersList c10DB c10Req).ids.length ≠ (ordersList c10DB c10Req).total := by
  refine ⟨by decide, by decide, by decide⟩

/-- Claim C10 amended: for a request without limit, provided the sparse store
is well formed (keys ascending and away from the scan sentinels, bucket
bitmaps duplicate-free), the filter intersection is duplicate-free, and every
id of the intersection lies in exactly one bucket, List scans to completion
and returns a permutation of the intersection, each id exactly once, so
len(IDs) equals Total. -/
theorem c10_no_limit_returns_all (db : DB) (r : Request)
    (hlim : r.limit = none)
    (hacc : (filterAcc db.bm r).Nodup)
    (hsk : db.sk.Pairwise (fun a b => a.1 < b.1))
    (hbnd : ∀ kv ∈ db.sk, 0 < kv.1 ∧ kv.1 < U64MAX)
    (hbmnd : ∀ kv ∈ db.sk, kv.2.Nodup)
    (hexcl : ∀ x ∈ filterAcc db.bm r, bucketCount db.sk x = 1) :
    (ordersList db r).ids.Perm (filterAcc db.bm r) ∧
    (ordersList db r).ids.length = (ordersList db r).total := by
  unfold ordersList
  by_cases hz : (filterAcc db.bm r).length = 0
  · rw [if_pos (Or.inr hz)]
    have hnil : filterAcc db.bm r = [] := List.length_eq_zero.mp hz
    constructor
    · rw [hnil]
    · show ([] : List Nat).length = (filterAcc db.bm r).length
      rw [hz]
      rfl
  · rw [if_neg (by
      intro hcontra
      rcases hcontra with hcontra | hcontra
      · rw [hlim] at hcontra
        cases hcontra
      · exact hz hcontra)]
    have hids : sparseScan db.sk db.fvs (filterAcc db.bm r) true
        (fun acc batch => appendIds r.limit acc batch) [] =
        ((deliveredBatches db.sk db.fvs (filterAcc db.bm r) true).map
          (fun batch => batch.map SortId.id)).flatten := by
      rw [hlim]
      rw [sparseScan_deliv db.sk db.fvs (filterAcc db.bm r)
        (fun acc batch => appendIds none acc batch) [] true hsk hbnd]
      rw [foldStop_appendIds]
      simp
    have hcount : ∀ x : Nat,
        (((deliveredBatches db.sk db.fvs (filterAcc db.bm r) true).map
          (fun batch => batch.map SortId.id)).flatten).count x =
        (filterAcc db.bm r).count x := by
      intro x
      rw [List.count_flatten, List.map_map]
      have h1 : ((deliveredBatches db.sk db.fvs (filterAcc db.bm r) true).map
          (fun batch => (batch.map SortId.id).count x)).sum =
          ((db.sk.reverse).map (fun b => (bmAnd b.2 (filterAcc db.bm r)).count x)).sum := by
        unfold deliveredBatches
        exact deliv_count db.fvs (filterAcc db.bm r) true db.sk.reverse x
      have h2 : ((db.sk.reverse).map (fun b => (bmAnd b.2 (filterAcc db.bm r)).count x)).sum =
          (db.sk.map (fun b => (bmAnd b.2 (filterAcc db.bm r)).count x)).sum := by
        rw [List.map_reverse, List.sum_reverse]
      have h3 : (db.sk.map (fun b => (bmAnd b.2 (filterAcc db.bm r)).count x)).sum =
          (db.sk.map (fun b => if x ∈ b.2 ∧ x ∈ filterAcc db.bm r then (1 : Nat) else 0)).sum := by
        apply congrArg
        apply List.map_congr_left
        intro b hb
        exact count_bmAnd (hbmnd b hb) _ x
      rw [show ((deliveredBatches db.sk db.fvs (filterAcc db.bm r) true).map
            (Function.comp (fun l => l.count x) (fun batch => batch.map SortId.id))).sum =
          ((deliveredBatches db.sk db.fvs (filterAcc db.bm r) true).map
            (fun batch => (batch.map SortId.id).count x)).sum from rfl]
      rw [h1, h2, h3, sum_map_ite_one]
      rw [count_nodup hacc]
      by_cases hx : x ∈ filterAcc db.bm r
      · rw [if_pos hx, if_pos hx]
        exact hexcl x hx
      · rw [if_neg hx, if_neg hx]
    have hperm : (((deliveredBatches db.sk db.fvs (filterAcc db.bm r) true).map
        (fun batch => batch.map SortId.id)).flatten).Perm (filterAcc db.bm r) :=
      List.perm_iff_count.mpr hcount
    constructor
    · show (sparseScan db.sk db.fvs (filterAcc db.bm r) true
        (fun acc batch => appendIds r.limit acc batch) []).Perm (filterAcc db.bm r)
      rw [hids]
      exact hperm
    · show (sparseScan db.sk db.fvs (filterAcc db.bm r) true
        (fun acc batch => appendIds r.limit acc batch) []).length = (filterAcc db.bm r).length
      rw [hids]
      exact hperm.length_eq

/-- Claim C10 amended witness. -/
theorem c10_no_limit_returns_all_witness :
    (c10Req.limit = none ∧ (filterAcc c10DB.bm c10Req).Nodup ∧
      (∀ x ∈ filterAcc (DB.mk [((termIndexKey "__all", "0"), [1, 2])]
        [(100, [1]), (200, [2])] [(1, 100), (2, 200)]).bm c10Req,
        bucketCount [(100, [1]), (200, [2])] x = 1)) ∧
    (ordersList (DB.mk [((termIndexKey "__all", "0"), [1, 2])]
        [(100, [1]), (200, [2])] [(1, 100), (2, 200)]) c10Req).ids.Perm
      (filterAcc (DB.mk [((termIndexKey "__all", "0"), [1, 2])]
        [(100, [1]), (200, [2])] [(1, 100), (2, 200)]).bm c10Req) :=
  ⟨⟨rfl, by decide, by decide⟩,
    (c10_no_limit_returns_all
      (DB.mk [((termIndexKey "__all", "0"), [1, 2])]
        [(100, [1]), (200, [2])] [(1, 100), (2, 200)]) c10Req
      rfl (by decide) (by decide) (by decide) (by decide) (by decide)).1⟩

/-! Lemmas for claim C9. -/

theorem procBucketsSt_eq {σ : Type} (db : DB) (base : Bitmap) (reverse : Bool)
    (proc : σ → List SortId → σ × Bool) : ∀ (acc : σ) (bl : List (Nat × Bitmap)),
    procBucketsSt db base reverse proc acc bl =
      (procBuckets db.fvs base reverse proc acc bl, db) := by
  intro acc bl
  induction bl generalizing acc with
  | nil => rfl
  | cons b rest ih =>
    rw [procBucketsSt, procBuckets]
    by_cases hi : (bmAnd b.2 base).length = 0
    · rw [if_pos hi, if_pos hi]
      exact ih acc
    · rw [if_neg hi, if_neg hi]
      simp only [querySortIdsSt]
      rcases hm : proc acc (if reverse then (querySortIds db.fvs (bmAnd b.2 base)).reverse
        else querySortIds db.fvs (bmAnd b.2 base)) with ⟨a, c⟩
      rcases c with _ | _
      · rfl
      · exact ih a

theorem scanLoopSt_eq {σ : Type} (db : DB) (base : Bitmap) (reverse : Bool)
    (proc : σ → List SortId → σ × Bool) (endv : Nat) :
    ∀ (fuel start : Nat) (acc : σ),
      scanLoopSt db base reverse proc endv fuel start acc =
        (scanLoop db.sk db.fvs base reverse proc endv fuel start acc, db) := by
  intro fuel
  induction fuel with
  | zero => intro start acc; rfl
  | succ fuel ih =>
    intro start acc
    rw [scanLoopSt, scanLoop]
    by_cases h1 : start = endv
    · rw [if_pos h1, if_pos h1]
    · rw [if_neg h1, if_neg h1]
      simp only [skbmScanSt]
      by_cases h2 : skbmScan db.sk start endv reverse 100 = []
      · rw [dif_pos h2, dif_pos h2]
      · rw [dif_neg h2, dif_neg h2]
        rw [procBucketsSt_eq]
        rcases hm : procBuckets db.fvs base reverse proc acc
            (skbmScan db.sk start endv reverse 100) with ⟨a, c⟩
        rcases c with _ | _
        · rfl
        · exact ih _ a

/-- Claim C9: the List call issues only read primitives, so the store it
hands back through every threaded primitive is the store it started from,
and its response is the one computed by the pure reading of that store: no
stored posting, bucket, or forward entry changes across a List call. -/
theorem c9_list_is_read_only (db : DB) (r : Request) :
    (ordersListSt db r).2 = db ∧ (ordersListSt db r).1 = ordersList db r := by
  rcases r with ⟨os, pid, pf, lim⟩
  have hsps : ∀ (bm : Bitmap) (s0 : List Nat),
      sparseScanSt db bm true (fun a batch => appendIds lim a batch) s0 =
        (sparseScan db.sk db.fvs bm true (fun a batch => appendIds lim a batch) s0, db) := by
    intro bm s0
    show scanLoopSt db bm true (fun a batch => appendIds lim a batch) 0
        (db.sk.length + 1) U64MAX s0 = _
    rw [scanLoopSt_eq]
    rfl
  constructor
  · rcases os with _ | v1 <;> rcases pid with _ | v2 <;>
      rcases pf with _ | ⟨mode, v3⟩ <;> try rcases mode
    all_goals
      simp only [ordersListSt, bmStoreGetSt, hsps]
      split <;> rfl
  · rcases os with _ | v1 <;> rcases pid with _ | v2 <;>
      rcases pf with _ | ⟨mode, v3⟩ <;> try rcases mode
    all_goals
      simp only [ordersListSt, ordersList, filterAcc, bmStoreGetSt, hsps]
      split <;> rfl

/-! Lemmas for the C1 failing-input evaluation. -/

theorem idsUpTo_succ (k : Nat) : idsUpTo (k + 1) = idsUpTo k ++ [k + 1] := by
  unfold idsUpTo
  rw [List.range_succ, List.map_append]
  rfl

theorem idsUpTo_length (k : Nat) : (idsUpTo k).length = k := by
  unfold idsUpTo
  rw [List.length_map, List.length_range]

theorem mem_idsUpTo {x k : Nat} : x ∈ idsUpTo k ↔ 1 ≤ x ∧ x ≤ k := by
  unfold idsUpTo
  simp only [List.mem_map, List.mem_range]
  constructor
  · rintro ⟨i, hi, rfl⟩
    omega
  · rintro ⟨h1, h2⟩
    exact ⟨x - 1, by omega, by omega⟩

theorem idsUpTo_ne_nil {k : Nat} (h : 1 ≤ k) : idsUpTo k ≠ [] := by
  intro hc
  have := idsUpTo_length k
  rw [hc] at this
  simp at this
  omega

theorem idsUpTo_pairwise (k : Nat) : (idsUpTo k).Pairwise (· < ·) := by
  unfold idsUpTo
  rw [List.pairwise_map]
  exact (List.pairwise_lt_range k).imp (fun h => by omega)

theorem bmAdd_gt {bm : Bitmap} {id : Nat} (h : ∀ x ∈ bm, x < id) :
    bmAdd id bm = bm ++ [id] := by
  induction bm with
  | nil => rfl
  | cons x xs ih =>
    have hx : x < id := h x (List.mem_cons_self x xs)
    rw [bmAdd, if_neg (by omega), if_neg (by omega)]
    rw [ih (fun y hy => h y (List.mem_cons_of_mem x hy))]
    rfl

theorem bmAdd_ne_nil (id : Nat) (bm : Bitmap) : bmAdd id bm ≠ [] := by
  cases bm with
  | nil => simp [bmAdd]
  | cons x xs =>
    rw [bmAdd]
    split
    · simp
    · split <;> simp

theorem bmAdd_idsUpTo (k : Nat) : bmAdd (k + 1) (idsUpTo k) = idsUpTo (k + 1) := by
  rw [bmAdd_gt (fun x hx => by
    have := mem_idsUpTo.mp hx
    omega)]
  exact (idsUpTo_succ k).symm

theorem fvSet_append {s : FvStore} {id : Nat} (h : ∀ e ∈ s, ¬ e.1 = id) (v : Nat) :
    fvSet s id v = s ++ [(id, v)] := by
  induction s with
  | nil => rfl
  | cons e rest ih =>
    rw [fvSet, if_neg (h e (List.mem_cons_self e rest))]
    rw [ih (fun e2 he2 => h e2 (List.mem_cons_of_mem e he2))]
    rfl

theorem c1FvState_succ (k : Nat) : c1FvState (k + 1) = c1FvState k ++ [(k + 1, 100)] := by
  unfold c1FvState
  rw [idsUpTo_succ, List.map_append]
  rfl

theorem fvSet_c1FvState (k : Nat) : fvSet (c1FvState k) (k + 1) 100 = c1FvState (k + 1) := by
  rw [fvSet_append (fun e he => by
    unfold c1FvState at he
    rcases List.mem_map.mp he with ⟨id, hid, rfl⟩
    have := mem_idsUpTo.mp hid
    omega) 100]
  exact (c1FvState_succ k).symm

theorem fvGetD_const (l : List Nat) (v : Nat) : ∀ x ∈ l,
    fvGetD (l.map (fun id => (id, v))) x = v := by
  induction l with
  | nil => intro x hx; cases hx
  | cons y ys ih =>
    intro x hx
    by_cases hyx : y = x
    · subst hyx
      unfold fvGetD
      rw [List.map_cons, List.find?_cons_of_pos _ (by simp)]
    · rcases List.mem_cons.mp hx with rfl | hmem
      · exact absurd rfl hyx
      · unfold fvGetD
        rw [List.map_cons, List.find?_cons_of_neg _ (by simp [hyx])]
        exact ih x hmem

theorem skbmMSet_nonempty {items : List (Nat × Bitmap)} (h : ∀ it ∈ items, it.2 ≠ [])
    (s : SkbmStore) : skbmMSet s items = items.foldl skbmUpsert s := by
  unfold skbmMSet
  have hdels : items.filter (fun it => decide (it.2.length = 0)) = [] := by
    apply List.filter_eq_nil_iff.mpr
    intro it hit
    simp [List.length_eq_zero, h it hit]
  have hsets : items.filter (fun it => decide (¬ it.2.length = 0)) = items := by
    apply List.filter_eq_self.mpr
    intro it hit
    simp [List.length_eq_zero, h it hit]
  rw [hdels, hsets]
  show List.foldl skbmUpsert
      (List.filter
        (fun kv => decide (¬ (([] : List (Nat × Bitmap)).any fun d => decide (d.1 = kv.1)) = true))
        s)
      items = List.foldl skbmUpsert s items
  congr 1
  apply List.filter_eq_self.mpr
  intro kv hkv
  simp

theorem c1_termAdds (k : Nat) :
    termAdd (termAdd (termAdd (termAdd (c1BmState k)
      (termIndexKey "__all") (makeValueKeyInt 0) (k + 1))
      (termIndexKey "order_status") (makeValueKeyInt 1) (k + 1))
      (termIndexKey "product_id") (makeValueKeyInt 1) (k + 1))
      (termIndexKey "provider_id") (makeValueKeyOptInt none) (k + 1)
    = c1BmState (k + 1) := by
  have hlen : ¬ (idsUpTo (k + 1)).length = 0 := by
    rw [idsUpTo_length]
    omega
  have ht1 : termAdd (c1BmState k) (termIndexKey "__all") (makeValueKeyInt 0) (k + 1)
      = [((termIndexKey "__all", "0"), idsUpTo (k + 1)),
         ((termIndexKey "order_status", "1"), idsUpTo k),
         ((termIndexKey "product_id", "1"), idsUpTo k),
         ((termIndexKey "provider_id", "null"), idsUpTo k)] := by
    unfold termAdd
    have hg : bmStoreGet (c1BmState k) (termIndexKey "__all") (makeValueKeyInt 0) = idsUpTo k := rfl
    rw [hg, bmAdd_idsUpTo]
    unfold bmStoreSet
    rw [if_neg hlen]
    rfl
  have ht2 : termAdd [((termIndexKey "__all", "0"), idsUpTo (k + 1)),
         ((termIndexKey "order_status", "1"), idsUpTo k),
         ((termIndexKey "product_id", "1"), idsUpTo k),
         ((termIndexKey "provider_id", "null"), idsUpTo k)]
        (termIndexKey "order_status") (makeValueKeyInt 1) (k + 1)
      = [((termIndexKey "__all", "0"), idsUpTo (k + 1)),
         ((termIndexKey "order_status", "1"), idsUpTo (k + 1)),
         ((termIndexKey "product_id", "1"), idsUpTo k),
         ((termIndexKey "provider_id", "null"), idsUpTo k)] := by
    unfold termAdd
    have hg : bmStoreGet [((termIndexKey "__all", "0"), idsUpTo (k + 1)),
         ((termIndexKey "order_status", "1"), idsUpTo k),
         ((termIndexKey "product_id", "1"), idsUpTo k),
         ((termIndexKey "provider_id", "null"), idsUpTo k)]
        (termIndexKey "order_status") (makeValueKeyInt 1) = idsUpTo k := rfl
    rw [hg, bmAdd_idsUpTo]
    unfold bmStoreSet
    rw [if_neg hlen]
    rfl
  have ht3 : termAdd [((termIndexKey "__all", "0"), idsUpTo (k + 1)),
         ((termIndexKey "order_status", "1"), idsUpTo (k + 1)),
         ((termIndexKey "product_id", "1"), idsUpTo k),
         ((termIndexKey "provider_id", "null"), idsUpTo k)]
        (termIndexKey "product_id") (makeValueKeyInt 1) (k + 1)
      = [((termIndexKey "__all", "0"), idsUpTo (k + 1)),
         ((termIndexKey "order_status", "1"), idsUpTo (k + 1)),
         ((termIndexKey "product_id", "1"), idsUpTo (k + 1)),
         ((termIndexKey "provider_id", "null"), idsUpTo k)] := by
    unfold termAdd
    have hg : bmStoreGet [((termIndexKey "__all", "0"), idsUpTo (k + 1)),
         ((termIndexKey "order_status", "1"), idsUpTo (k + 1)),
         ((termIndexKey "product_id", "1"), idsUpTo k),
         ((termIndexKey "provider_id", "null"), idsUpTo k)]
        (termIndexKey "product_id") (makeValueKeyInt 1) = idsUpTo k := rfl
    rw [hg, bmAdd_idsUpTo]
    unfold bmStoreSet
    rw [if_neg hlen]
    rfl
  have ht4 : termAdd [((termIndexKey "__all", "0"), idsUpTo (k + 1)),
         ((termIndexKey "order_status", "1"), idsUpTo (k + 1)),
         ((termIndexKey "product_id", "1"), idsUpTo (k + 1)),
         ((termIndexKey "provider_id", "null"), idsUpTo k)]
        (termIndexKey "provider_id") (makeValueKeyOptInt none) (k + 1)
      = c1BmState (k + 1) := by
    unfold termAdd
    have hg : bmStoreGet [((termIndexKey "__all", "0"), idsUpTo (k + 1)),
         ((termIndexKey "order_status", "1"), idsUpTo (k + 1)),
         ((termIndexKey "product_id", "1"), idsUpTo (k + 1)),
         ((termIndexKey "provider_id", "null"), idsUpTo k)]
        (termIndexKey "provider_id") (makeValueKeyOptInt none) = idsUpTo k := rfl
    rw [hg, bmAdd_idsUpTo]
    unfold bmStoreSet
    rw [if_neg hlen]
    rfl
  rw [ht1, ht2, ht3, ht4]

theorem c1_step (k : Nat) (h1 : 1 ≤ k) (h9 : k ≤ 999) :
    onInsert ⟨c1BmState k, [(100, idsUpTo k)], c1FvState k⟩ (c1Order (k + 1)) =
      ⟨c1BmState (k + 1), [(100, idsUpTo (k + 1))], c1FvState (k + 1)⟩ := by
  have hsp : sparseAdd consumerThreshold [(100, idsUpTo k)] (c1FvState k) 100 (k + 1)
      = ([(100, idsUpTo (k + 1))], c1FvState (k + 1)) := by
    have hfloor : getFloorSortedBm [(100, idsUpTo k)] 100 = some (100, idsUpTo k) := rfl
    have hcond : (idsUpTo k).length < consumerThreshold := by
      rw [idsUpTo_length]
      unfold consumerThreshold
      omega
    simp only [sparseAdd, hfloor]
    rw [if_pos hcond]
    show (skbmMSet [(100, idsUpTo k)] [(100, bmAdd (k + 1) (idsUpTo k))],
      fvSet (c1FvState k) (k + 1) 100) = _
    rw [bmAdd_idsUpTo, fvSet_c1FvState]
    rw [skbmMSet_nonempty (by
      intro it hit
      rcases List.mem_singleton.mp hit with rfl
      exact idsUpTo_ne_nil (by omega))]
    rfl
  show DB.mk (termAdd (termAdd (termAdd (termAdd (c1BmState k)
      (termIndexKey "__all") (makeValueKeyInt 0) (k + 1))
      (termIndexKey "order_status") (makeValueKeyInt 1) (k + 1))
      (termIndexKey "product_id") (makeValueKeyInt 1) (k + 1))
      (termIndexKey "provider_id") (makeValueKeyOptInt none) (k + 1))
    (sparseAdd consumerThreshold [(100, idsUpTo k)] (c1FvState k) 100 (k + 1)).1
    (sparseAdd consumerThreshold [(100, idsUpTo k)] (c1FvState k) 100 (k + 1)).2 = _
  rw [c1_termAdds, hsp]

theorem bmOfSortIds_map_idsUpTo (n : Nat) :
    bmOfSortIds ((idsUpTo n).map (fun id => SortId.mk id 100)) = idsUpTo n := by
  induction n with
  | zero => rfl
  | succ m ih =>
    rw [idsUpTo_succ, List.map_append]
    unfold bmOfSortIds
    rw [List.foldl_append]
    unfold bmOfSortIds at ih
    rw [ih]
    show bmAdd (m + 1) (idsUpTo m) = idsUpTo m ++ [m + 1]
    rw [← idsUpTo_succ]
    exact bmAdd_idsUpTo m

theorem querySortedIds_c1 (n : Nat) :
    querySortedIds (c1FvState n) (idsUpTo n)
      = (idsUpTo n).map (fun id => SortId.mk id 100) := by
  unfold querySortedIds
  have hmap : (idsUpTo n).map (fun id => SortId.mk id (fvGetD (c1FvState n) id))
      = (idsUpTo n).map (fun id => SortId.mk id 100) := by
    apply List.map_congr_left
    intro x hx
    unfold c1FvState
    rw [fvGetD_const (idsUpTo n) 100 x hx]
  rw [hmap]
  apply List.Sorted.insertionSort_eq
  show ((idsUpTo n).map (fun id => SortId.mk id 100)).Pairwise
    (fun a b => a.score ≤ b.score)
  rw [List.pairwise_map]
  exact (idsUpTo_pairwise n).imp (fun _ => le_refl 100)

set_option maxRecDepth 100000 in
set_option maxHeartbeats 4000000 in
theorem c1_last :
    onInsert ⟨c1BmState 1000, [(100, idsUpTo 1000)], c1FvState 1000⟩ (c1Order 1001) =
      ⟨c1BmState 1001, [(100, idsUpTo 500)], c1FvState 1001⟩ := by
  have hsp : sparseAdd consumerThreshold [(100, idsUpTo 1000)] (c1FvState 1000) 100 (1000 + 1)
      = ([(100, idsUpTo 500)], c1FvState (1000 + 1)) := by
    have hfloor : getFloorSortedBm [(100, idsUpTo 1000)] 100 = some (100, idsUpTo 1000) := rfl
    have hcond : ¬ (idsUpTo 1000).length < consumerThreshold := by
      rw [idsUpTo_length]
      unfold consumerThreshold
      omega
    simp only [sparseAdd, hfloor]
    rw [if_neg hcond]
    rw [querySortedIds_c1 1000]
    have hlenm : ((idsUpTo 1000).map (fun id => SortId.mk id 100)).length = 1000 := by
      rw [List.length_map, idsUpTo_length]
    rw [hlenm]
    have hmid : (1000 : Nat) / 2 = 500 := by norm_num
    rw [hmid]
    have hgetD : ((idsUpTo 1000).map (fun id => SortId.mk id 100)).getD 500 (SortId.mk 0 0)
        = SortId.mk 501 100 := by rfl
    have hheadD : ((idsUpTo 1000).map (fun id => SortId.mk id 100)).headD (SortId.mk 0 0)
        = SortId.mk 1 100 := by rfl
    rw [hgetD, hheadD]
    rw [if_pos (show (SortId.mk 501 100).score ≤ 100 from le_refl 100)]
    have htake : ((idsUpTo 1000).map (fun id => SortId.mk id 100)).take 500
        = (idsUpTo 500).map (fun id => SortId.mk id 100) := by
      rw [← List.map_take]
      unfold idsUpTo
      rw [← List.map_take, List.take_range]
      norm_num
    show (skbmMSet [(100, idsUpTo 1000)]
        [((SortId.mk 501 100).score,
          bmAdd (1000 + 1) (bmOfSortIds (((idsUpTo 1000).map (fun id => SortId.mk id 100)).drop 500))),
         ((SortId.mk 1 100).score,
          bmOfSortIds (((idsUpTo 1000).map (fun id => SortId.mk id 100)).take 500))],
      fvSet (c1FvState 1000) (1000 + 1) 100) = _
    rw [htake, bmOfSortIds_map_idsUpTo 500]
    rw [skbmMSet_nonempty (by
      intro it hit
      rcases List.mem_cons.mp hit with rfl | hit2
      · exact bmAdd_ne_nil _ _
      · rcases List.mem_singleton.mp hit2 with rfl
        exact idsUpTo_ne_nil (by omega))]
    rw [fvSet_c1FvState 1000]
    rfl
  show DB.mk (termAdd (termAdd (termAdd (termAdd (c1BmState 1000)
      (termIndexKey "__all") (makeValueKeyInt 0) (1000 + 1))
      (termIndexKey "order_status") (makeValueKeyInt 1) (1000 + 1))
      (termIndexKey "product_id") (makeValueKeyInt 1) (1000 + 1))
      (termIndexKey "provider_id") (makeValueKeyOptInt none) (1000 + 1))
    (sparseAdd consumerThreshold [(100, idsUpTo 1000)] (c1FvState 1000) 100 (1000 + 1)).1
    (sparseAdd consumerThreshold [(100, idsUpTo 1000)] (c1FvState 1000) 100 (1000 + 1)).2 = _
  rw [c1_termAdds 1000, hsp]

theorem c1_prefix_eq : ∀ k, 1 ≤ k → k ≤ 1000 →
    ((List.range k).map (fun i => Event.ins (c1Order (i + 1)))).foldl applyEvent emptyDB
      = ⟨c1BmState k, [(100, idsUpTo k)], c1FvState k⟩ := by
  intro k
  induction k with
  | zero => intro h1 _; omega
  | succ n ih =>
    intro _ hle
    by_cases hn : n = 0
    · subst hn
      rfl
    · rw [List.range_succ, List.map_append, List.foldl_append]
      rw [ih (by omega) (by omega)]
      show onInsert ⟨c1BmState n, [(100, idsUpTo n)], c1FvState n⟩ (c1Order (n + 1)) = _
      exact c1_step n (by omega) (by omega)

theorem c1DB_eq : c1DB = ⟨c1BmState 1001, [(100, idsUpTo 500)], c1FvState 1001⟩ := by
  unfold c1DB applyEvents c1Events
  show ((List.range (1000 + 1)).map (fun i => Event.ins (c1Order (i + 1)))).foldl
    applyEvent emptyDB = _
  rw [List.range_succ, List.map_append, List.foldl_append]
  rw [c1_prefix_eq 1000 (by omega) (by omega)]
  show onInsert ⟨c1BmState 1000, [(100, idsUpTo 1000)], c1FvState 1000⟩ (c1Order (1000 + 1)) = _
  exact c1_last

set_option maxRecDepth 100000 in
set_option maxHeartbeats 4000000 in
/-- C1: the ingest and query equivalence fails. After fully applying the 1001
create events of the failing sequence (ids 1 to 1001, all with the same
create_time 100), List with no filters and no limit reports Total 1001 but
returns only 500 ids: the 1001st Add splits the full create_time bucket, the
two halves carry the same sort key because every forward value is equal, and
the duplicate-field HMSET keeps only the lower half, losing the upper half
and the new id from every bucket. -/
theorem c1_split_swallows_ids : c1Resp.total = 1001 ∧ c1Resp.ids.length = 500 := by
  have hacc : filterAcc (c1BmState 1001) ⟨none, none, none, none⟩ = idsUpTo 1001 := rfl
  have hand : bmAnd (idsUpTo 500) (idsUpTo 1001) = idsUpTo 500 := by
    unfold bmAnd
    apply List.filter_eq_self.mpr
    intro x hx
    have hm := mem_idsUpTo.mp hx
    simp only [decide_eq_true_eq, mem_idsUpTo]
    omega
  unfold c1Resp
  rw [c1DB_eq]
  unfold ordersList
  rw [hacc]
  rw [if_neg (by
    rw [idsUpTo_length]
    simp)]
  have hids : sparseScan [(100, idsUpTo 500)] (c1FvState 1001) (idsUpTo 1001) true
      (fun acc batch => appendIds none acc batch) [] =
      (querySortIds (c1FvState 1001) (idsUpTo 500)).reverse.map SortId.id := by
    rw [sparseScan_deliv [(100, idsUpTo 500)] (c1FvState 1001) (idsUpTo 1001)
      (fun acc batch => appendIds none acc batch) [] true
      (by simp)
      (by
        intro kv hkv
        rcases List.mem_singleton.mp hkv with rfl
        unfold U64MAX
        omega)]
    have hbb : bucketBatch (c1FvState 1001) (idsUpTo 1001) true (100, idsUpTo 500)
        = some ((querySortIds (c1FvState 1001) (idsUpTo 500)).reverse) := by
      unfold bucketBatch
      show (if (bmAnd (idsUpTo 500) (idsUpTo 1001)).length = 0 then none
        else some ((querySortIds (c1FvState 1001) (bmAnd (idsUpTo 500) (idsUpTo 1001))).reverse)) = _
      rw [hand]
      rw [if_neg (by rw [idsUpTo_length]; omega)]
    have hbatch : deliveredBatches [(100, idsUpTo 500)] (c1FvState 1001) (idsUpTo 1001) true
        = [(querySortIds (c1FvState 1001) (idsUpTo 500)).reverse] := by
      unfold deliveredBatches
      show ([(100, idsUpTo 500)] : SkbmStore).reverse.filterMap
        (bucketBatch (c1FvState 1001) (idsUpTo 1001) true) = _
      rw [show ([(100, idsUpTo 500)] : SkbmStore).reverse = [(100, idsUpTo 500)] from rfl]
      rw [List.filterMap_cons, hbb]
      rfl
    rw [hbatch, foldStop_appendIds]
    simp
  constructor
  · show (idsUpTo 1001).length = 1001
    exact idsUpTo_length 1001
  · show (sparseScan [(100, idsUpTo 500)] (c1FvState 1001) (idsUpTo 1001) true
      (fun acc batch => appendIds none acc batch) []).length = 500
    rw [hids, List.length_map, List.length_reverse]
    unfold querySortIds
    rw [List.length_insertionSort, List.length_map, idsUpTo_length]

end InvIndex
